import Mathlib

/-!
# Guesswatch room session core (`server.go`)

A shallow embedding of the room registry, the round engine and the broadcast
loops of `server.go`, followed by theorems about them.

Modelling conventions.

* A `*websocket.Conn` is a natural number (pointer identity); the nil pointer
  is `Option.none`.  Map keys are never nil: every key is a connection returned
  by a successful upgrade.
* A Go map is an association list with distinct keys.  The order in which a
  `range` loop visits the keys is not fixed by Go: every loop takes a proposed
  enumeration from the oracle and uses it whenever it is a permutation of the
  key set (`rangeKeys`).
* `rand.Intn n` is `r % n` for an oracle value `r`.
* `WriteJSON` on a connection fails when the connection has been closed by the
  server, or when the oracle says the peer is gone.  Every send attempt is
  recorded in a trace together with its outcome.
* An inbound event carries the `Message` value held by the handler after
  `ReadJSON`.  In the transition system of events (`step`, `run`, `Reachable`) the
  handler of a message runs to completion before the next message of any
  connection is handled.
* The handlers release the mutex between their locked parts.  The transition
  system of sections (`runAtom`, `AtomReachable`) has one transition for each
  locked part, with free arguments: its runs cover every interleaving of the
  handlers, and every handler is a sequence of its transitions
  (`handleMessage_is_atoms`, `reachable_is_atomReachable`).
-/

set_option linter.dupNamespace false

namespace Guesswatch

/-- A connection handle (`*websocket.Conn`), compared by identity. -/
abbrev Conn := Nat

/-- The Go struct `Message`; `Typ` is its field `Type`. -/
structure Message where
  Typ : String := ""
  Message : String := ""
  Nickname : String := ""
  RoomCode : String := ""
  X : Int := 0
  Y : Int := 0
  PrevX : Int := 0
  PrevY : Int := 0
deriving DecidableEq, Repr

/-- The Go type `map[*websocket.Conn]string`. -/
abbrev ClientMap := List (Conn × String)

/-- The Go struct `Room`. -/
structure Room where
  Code : String
  Clients : ClientMap
  CurrentDrawer : Option Conn
  WordToDraw : String
deriving DecidableEq, Repr

/-- The variables `nickname` and `roomCode` local to one run of `handleConnection`. -/
structure Local where
  nickname : String
  roomCode : String
deriving DecidableEq, Repr

/-- The shared state: the global `rooms`, the local variables of every handler,
and the connections on which `Close` has been called. -/
structure World where
  rooms : List (String × Room)
  locals : List (Conn × Local)
  closed : List Conn
deriving DecidableEq, Repr

/-- One attempted `WriteJSON`: the target, the message, and whether it went through. -/
structure Send where
  dest : Conn
  msg : Message
  ok : Bool
deriving DecidableEq, Repr

/-- The nondeterministic choices made while one inbound message is handled:
the raw values behind the calls of `rand.Intn`, the enumeration proposed for each
`range` loop, and the connections whose peer is gone at each sending site. -/
structure Oracle where
  codeRand : Nat
  playerRand : Nat
  wordRand : Nat
  order : Nat → List Conn
  fails : Nat → Conn → Bool

/-- The global `wordList`. -/
def wordList : List String :=
  ["maison", "chat", "chien", "arbre", "voiture", "soleil", "ordinateur", "livre"]

/-! ## Go maps -/

/-- The keys of a client map, in storage order. -/
def clientKeys (m : ClientMap) : List Conn := m.map Prod.fst

/-- The Go expression `m[c]`: the stored name, or the zero value `""`. -/
def getClient (m : ClientMap) (c : Conn) : String := (m.lookup c).getD ""

/-- The Go statement `m[c] = name`. -/
def setClient : ClientMap → Conn → String → ClientMap
  | [], c, name => [(c, name)]
  | (k, v) :: rest, c, name =>
    if k = c then (c, name) :: rest else (k, v) :: setClient rest c name

/-- The Go statement `delete(m, c)`. -/
def deleteClient (m : ClientMap) (c : Conn) : ClientMap := m.filter (fun p => p.1 ≠ c)

/-- The keys visited by `for client := range m`: the proposed enumeration when it
is a permutation of the keys, and the storage order otherwise. -/
def rangeKeys (ord : List Conn) (m : ClientMap) : List Conn :=
  if ord.Perm (clientKeys m) then ord else clientKeys m

/-- The Go expression `rooms[code]` with its `exists` flag. -/
def findRoom (rooms : List (String × Room)) (code : String) : Option Room := rooms.lookup code

/-- The Go statement `rooms[code] = room`; also the write-back of a room mutated
through its pointer. -/
def putRoom : List (String × Room) → String → Room → List (String × Room)
  | [], code, room => [(code, room)]
  | (k, v) :: rest, code, room =>
    if k = code then (code, room) :: rest else (k, v) :: putRoom rest code room

/-- The local variables of the handler of `c`, with their initial values. -/
def localOf (w : World) (c : Conn) : Local := (w.locals.lookup c).getD ⟨"Anonyme", ""⟩

/-- Assignment to the local variables of the handler of `c`. -/
def setLocal : List (Conn × Local) → Conn → Local → List (Conn × Local)
  | [], c, l => [(c, l)]
  | (k, v) :: rest, c, l =>
    if k = c then (c, l) :: rest else (k, v) :: setLocal rest c l

/-! ## Sending -/

/-- Whether `WriteJSON` on `c` returns an error. -/
def sendErr (closed : List Conn) (fails : Conn → Bool) (c : Conn) : Bool :=
  decide (c ∈ closed) || fails c

/-- The trace entry of one `WriteJSON`. -/
def writeJSON (closed : List Conn) (fails : Conn → Bool) (c : Conn) (msg : Message) : Send :=
  ⟨c, msg, !sendErr closed fails c⟩

/-- The effect of `c.Close()`. -/
def closeConn (closed : List Conn) (c : Conn) : List Conn :=
  if c ∈ closed then closed else c :: closed

/-- The loop of `broadcastMessage` over the enumerated keys: a failed send closes
the connection and deletes it from the room's map. -/
def broadcastMessageLoop (fails : Conn → Bool) (msg : Message) :
    List Conn → ClientMap → List Conn → (ClientMap × List Conn) × List Send
  | [], clients, closed => ((clients, closed), [])
  | c :: rest, clients, closed =>
    if sendErr closed fails c then
      let r := broadcastMessageLoop fails msg rest (deleteClient clients c) (closeConn closed c)
      (r.1, writeJSON closed fails c msg :: r.2)
    else
      let r := broadcastMessageLoop fails msg rest clients closed
      (r.1, writeJSON closed fails c msg :: r.2)

/-- The loop of `broadcastDraw`: as `broadcastMessageLoop`, skipping `sender`. -/
def broadcastDrawLoop (fails : Conn → Bool) (msg : Message) (sender : Conn) :
    List Conn → ClientMap → List Conn → (ClientMap × List Conn) × List Send
  | [], clients, closed => ((clients, closed), [])
  | c :: rest, clients, closed =>
    if c ≠ sender then
      if sendErr closed fails c then
        let r := broadcastDrawLoop fails msg sender rest (deleteClient clients c) (closeConn closed c)
        (r.1, writeJSON closed fails c msg :: r.2)
      else
        let r := broadcastDrawLoop fails msg sender rest clients closed
        (r.1, writeJSON closed fails c msg :: r.2)
    else
      broadcastDrawLoop fails msg sender rest clients closed

/-- The function `broadcastMessage`. -/
def broadcastMessage (w : World) (ord : List Conn) (fails : Conn → Bool) (msg : Message)
    (roomCode : String) : World × List Send :=
  match findRoom w.rooms roomCode with
  | none => (w, [])
  | some room =>
    let r := broadcastMessageLoop fails msg (rangeKeys ord room.Clients) room.Clients w.closed
    let room1 : Room := { room with Clients := r.1.1 }
    ({ w with rooms := putRoom w.rooms roomCode room1, closed := r.1.2 }, r.2)

/-- The function `broadcastDraw`. -/
def broadcastDraw (w : World) (ord : List Conn) (fails : Conn → Bool) (msg : Message)
    (roomCode : String) (sender : Conn) : World × List Send :=
  match findRoom w.rooms roomCode with
  | none => (w, [])
  | some room =>
    let r := broadcastDrawLoop fails msg sender (rangeKeys ord room.Clients) room.Clients w.closed
    let room1 : Room := { room with Clients := r.1.1 }
    ({ w with rooms := putRoom w.rooms roomCode room1, closed := r.1.2 }, r.2)

/-! ## The round engine -/

/-- The function `generateRoomCode`: `strconv.Itoa(rand.Intn(10000))`. -/
def generateRoomCode (r : Nat) : String := toString (r % 10000)

/-- The function `getRandomPlayer`, on the keys collected by its `range` loop. -/
def getRandomPlayer (keys : List Conn) (r : Nat) : Option Conn :=
  if keys.length = 0 then none else keys[r % keys.length]?

/-- The function `getNextPlayer`, on the keys collected by its `range` loop. -/
def getNextPlayer (keys : List Conn) (current : Option Conn) : Option Conn :=
  if keys.length = 0 then none
  else
    let next : Option Conn :=
      match keys.findIdx? (fun c => decide (some c = current)) with
      | some i => keys[(i + 1) % keys.length]?
      | none => none
    match next with
    | none => keys[0]?
    | some n => some n

/-- The word picked by `wordList[rand.Intn(len(wordList))]`. -/
def pickWord (r : Nat) : String :=
  wordList.get ⟨r % wordList.length, Nat.mod_lt _ (by decide)⟩

/-- The message `yourWord` sent to the drawer. -/
def yourWordMsg (word : String) : Message := { Typ := "yourWord", Message := word }

/-- The message `startGuessing` sent to the other participants. -/
def startGuessingMsg : Message :=
  { Typ := "startGuessing", Message := "Un joueur dessine, essayez de deviner le mot !" }

/-- The drawer chosen by the first statement of `startNewRound`. -/
def nextDrawerOf (o : Oracle) (room : Room) (nextDrawer : Option Conn) : Option Conn :=
  match nextDrawer with
  | some d => some d
  | none =>
    match room.CurrentDrawer with
    | none => getRandomPlayer (rangeKeys (o.order 2) room.Clients) o.playerRand
    | some cur => getNextPlayer (rangeKeys (o.order 2) room.Clients) (some cur)

/-- The function `startNewRound`: the room after it and the sends it attempts.
Errors of these sends are not looked at by the code. -/
def startNewRound (closed : List Conn) (o : Oracle) (room : Room) (nextDrawer : Option Conn) :
    Room × List Send :=
  let drawer := nextDrawerOf o room nextDrawer
  let word := pickWord o.wordRand
  let toDrawer : List Send :=
    match drawer with
    | some d => [writeJSON closed (o.fails 3) d (yourWordMsg word)]
    | none => []
  let toOthers : List Send :=
    ((rangeKeys (o.order 3) room.Clients).filter (fun c => decide (some c ≠ drawer))).map
      (fun c => writeJSON closed (o.fails 4) c startGuessingMsg)
  ({ room with CurrentDrawer := drawer, WordToDraw := word }, toDrawer ++ toOthers)

/-! ## The handlers -/

/-- The function `handleDraw`. -/
def handleDraw (w : World) (o : Oracle) (ws : Conn) (msg : Message) : World × List Send :=
  match findRoom w.rooms msg.RoomCode with
  | none => (w, [])
  | some room =>
    if some ws ≠ room.CurrentDrawer then (w, [])
    else broadcastDraw w (o.order 0) (o.fails 0) msg msg.RoomCode ws

/-- The message `guessCorrect` broadcast by `handleGuess`. -/
def guessCorrectMsg (nickname : String) : Message :=
  { Typ := "guessCorrect", Message := nickname ++ " a deviné le mot !" }

/-- The message `youWon` sent to the guesser by `handleGuess`. -/
def youWonMsg : Message :=
  { Typ := "youWon", Message := "Vous avez gagné un point, c'est votre tour de dessiner !" }

/-- The message `clearCanvas` broadcast by `handleGuess`. -/
def clearCanvasMsg : Message := { Typ := "clearCanvas" }

/-- The chat message broadcast by `handleGuess` for a wrong guess. -/
def chatMsg (nickname text : String) : Message :=
  { Typ := "message", Nickname := nickname, Message := text }

/-- The function `handleGuess`.  The pointer `room` read at the top is the room
stored under `msg.RoomCode`, so `startNewRound` works on the room as the two
broadcasts left it. -/
def handleGuess (w : World) (o : Oracle) (ws : Conn) (msg : Message) : World × List Send :=
  match findRoom w.rooms msg.RoomCode with
  | none => (w, [])
  | some room =>
    let nickname := getClient room.Clients ws
    if msg.Message = room.WordToDraw then
      let b1 := broadcastMessage w (o.order 0) (o.fails 0) (guessCorrectMsg nickname) msg.RoomCode
      let won := writeJSON b1.1.closed (o.fails 1) ws youWonMsg
      let b2 := broadcastMessage b1.1 (o.order 1) (o.fails 2) clearCanvasMsg msg.RoomCode
      match findRoom b2.1.rooms msg.RoomCode with
      | none => (b2.1, b1.2 ++ won :: b2.2)
      | some room2 =>
        let r := startNewRound b2.1.closed o room2 (some ws)
        ({ b2.1 with rooms := putRoom b2.1.rooms msg.RoomCode r.1 }, b1.2 ++ won :: b2.2 ++ r.2)
    else
      broadcastMessage w (o.order 0) (o.fails 0) (chatMsg nickname msg.Message) msg.RoomCode

/-- The `nickname` case of the loop of `handleConnection`.  Indexing a room that
is not in `rooms` dereferences a nil pointer: the result is `none`. -/
def handleNickname (w : World) (ws : Conn) (msg : Message) : Option (World × List Send) :=
  let l := localOf w ws
  let w1 := { w with locals := setLocal w.locals ws { l with nickname := msg.Nickname } }
  if l.roomCode ≠ "" then
    match findRoom w.rooms l.roomCode with
    | none => none
    | some room =>
      let room1 : Room := { room with Clients := setClient room.Clients ws msg.Nickname }
      some ({ w1 with rooms := putRoom w.rooms l.roomCode room1 }, [])
  else some (w1, [])

/-- The `createRoom` case of the loop of `handleConnection`. -/
def handleCreateRoom (w : World) (o : Oracle) (ws : Conn) : World × List Send :=
  let l := localOf w ws
  let code := generateRoomCode o.codeRand
  let room : Room :=
    { Code := code, Clients := setClient [] ws l.nickname, CurrentDrawer := none, WordToDraw := "" }
  let l1 : Local := { l with roomCode := code }
  ({ w with locals := setLocal w.locals ws l1, rooms := putRoom w.rooms code room },
   [writeJSON w.closed (o.fails 0) ws { Typ := "roomCreated", RoomCode := code }])

/-- The `joinRoom` case of the loop of `handleConnection`. -/
def handleJoinRoom (w : World) (o : Oracle) (ws : Conn) (msg : Message) : World × List Send :=
  let l := localOf w ws
  match findRoom w.rooms msg.RoomCode with
  | some room =>
    let room1 : Room := { room with Clients := setClient room.Clients ws l.nickname }
    let locals1 := setLocal w.locals ws { l with roomCode := msg.RoomCode }
    let joined := writeJSON w.closed (o.fails 0) ws { Typ := "roomJoined", RoomCode := msg.RoomCode }
    if room1.Clients.length ≥ 2 ∧ room1.CurrentDrawer = none then
      let r := startNewRound w.closed o room1 none
      ({ w with locals := locals1, rooms := putRoom w.rooms msg.RoomCode r.1 }, joined :: r.2)
    else
      ({ w with locals := locals1, rooms := putRoom w.rooms msg.RoomCode room1 }, [joined])
  | none =>
    (w, [writeJSON w.closed (o.fails 0) ws { Typ := "error", Message := "Room not found" }])

/-- The `message` case of the loop of `handleConnection`. -/
def handleChat (w : World) (o : Oracle) (ws : Conn) (msg : Message) : World × List Send :=
  broadcastMessage w (o.order 0) (o.fails 0) { msg with Nickname := (localOf w ws).nickname }
    msg.RoomCode

/-- One turn of the loop of `handleConnection` after a successful `ReadJSON`:
the `switch` on `msg.Type`.  The result is `none` when the handler faults. -/
def handleMessage (w : World) (o : Oracle) (ws : Conn) (msg : Message) :
    Option (World × List Send) :=
  if msg.Typ = "nickname" then handleNickname w ws msg
  else if msg.Typ = "createRoom" then some (handleCreateRoom w o ws)
  else if msg.Typ = "joinRoom" then some (handleJoinRoom w o ws msg)
  else if msg.Typ = "message" then some (handleChat w o ws msg)
  else if msg.Typ = "draw" then some (handleDraw w o ws msg)
  else if msg.Typ = "guess" then some (handleGuess w o ws msg)
  else some (w, [])

/-- The end of `handleConnection`: `ReadJSON` failed, the loop is left and the
deferred function closes the connection.  Nothing else is touched. -/
def handleReceiveFailure (w : World) (ws : Conn) : World :=
  { w with closed := closeConn w.closed ws }

/-! ## The session as a transition system -/

/-- What can happen to the server: a connection delivers a message, with the
choices made while it is handled, or the read on a connection fails. -/
inductive Event where
  | recv (ws : Conn) (msg : Message) (o : Oracle)
  | recvFail (ws : Conn)

/-- One transition.  The loop of `handleConnection` has no check of its own on
the state of the connection: every frame that `ReadJSON` returns is handled, also
after the server has called `Close` on the connection. -/
def step (w : World) : Event → Option (World × List Send)
  | Event.recv ws msg o => handleMessage w o ws msg
  | Event.recvFail ws => some (handleReceiveFailure w ws, [])

/-- The server at start-up: no room, no handler, no closed connection. -/
def World.empty : World := ⟨[], [], []⟩

/-- Runs a list of events from a state, collecting the sends. -/
def run : World → List Event → Option (World × List Send)
  | w, [] => some (w, [])
  | w, e :: es =>
    match step w e with
    | none => none
    | some (w1, t1) =>
      match run w1 es with
      | none => none
      | some (w2, t2) => some (w2, t1 ++ t2)

/-- Runs a list of events from a state, as long as each of them passes the
check `ok` in the state it meets; the result is the final state. -/
def runVia (ok : World → Event → Bool) : World → List Event → Option World
  | w, [] => some w
  | w, e :: es =>
    if ok w e then
      match step w e with
      | none => none
      | some (w1, _) => runVia ok w1 es
    else none

/-- The states reachable from the empty registry by events that pass the check
`ok` in the state they meet. -/
inductive ReachableVia (ok : World → Event → Bool) : World → Prop where
  | init : ReachableVia ok World.empty
  | next (w : World) (e : Event) (w1 : World) (tr : List Send) :
      ReachableVia ok w → ok w e = true → step w e = some (w1, tr) → ReachableVia ok w1

/-- The states reachable from the empty registry by any sequence of events. -/
def Reachable (w : World) : Prop := ReachableVia (fun _ _ => true) w

/-- The drawer of a room, when there is one, is a key of its `Clients`. -/
def drawerIsMember (r : Room) : Prop :=
  match r.CurrentDrawer with
  | none => True
  | some d => d ∈ clientKeys r.Clients

/-- Every room of the registry has its drawer, when there is one, among its
participants. -/
def drawerInvariant (w : World) : Prop :=
  ∀ code room, findRoom w.rooms code = some room → drawerIsMember room

/-! ## The sections under the mutex -/

/-- The pieces of the handlers that change the shared state.  Each of the first
five runs with the mutex held from its first to its last statement; between two
of them the mutex is free, and a section of another handler may run.
`assign` is `rooms[code].Clients[ws] = name` of the `nickname` and `joinRoom`
cases, `create` is the locked part of the `createRoom` case, `round` is
`startNewRound` on the room stored under `code`, `broadcast` and `broadcastDraw`
are the two broadcast functions, and `close` is `ws.Close()` at the end of a
handler.  The arguments are free: a handler computes them from reads it made
earlier, possibly before sections of other handlers. -/
inductive Atom where
  | assign (code : String) (ws : Conn) (name : String)
  | create (code : String) (ws : Conn) (name : String)
  | round (code : String) (nextDrawer : Option Conn) (o : Oracle)
  | broadcast (code : String) (msg : Message) (ord : List Conn) (fails : Conn → Bool)
  | broadcastDraw (code : String) (msg : Message) (sender : Conn) (ord : List Conn)
      (fails : Conn → Bool)
  | close (ws : Conn)

/-- The effect of one section on the shared state.  A section that works on a
room does nothing when no room is stored under its code: the broadcasts and the
join test `exists`, `startNewRound` then works on a room that is no longer in the
registry, and the `nickname` case faults. -/
def runAtom (w : World) : Atom → World
  | Atom.assign code ws name =>
    match findRoom w.rooms code with
    | none => w
    | some room =>
      let room1 : Room := { room with Clients := setClient room.Clients ws name }
      { w with rooms := putRoom w.rooms code room1 }
  | Atom.create code ws name =>
    let room : Room :=
      { Code := code, Clients := setClient [] ws name, CurrentDrawer := none, WordToDraw := "" }
    { w with rooms := putRoom w.rooms code room }
  | Atom.round code nextDrawer o =>
    match findRoom w.rooms code with
    | none => w
    | some room => { w with rooms := putRoom w.rooms code (startNewRound w.closed o room nextDrawer).1 }
  | Atom.broadcast code msg ord fails => (broadcastMessage w ord fails msg code).1
  | Atom.broadcastDraw code msg sender ord fails => (broadcastDraw w ord fails msg code sender).1
  | Atom.close ws => { w with closed := closeConn w.closed ws }

/-- Runs a list of sections, in any interleaving the list spells out. -/
def runAtoms : World → List Atom → World
  | w, [] => w
  | w, a :: rest => runAtoms (runAtom w a) rest

/-- The sections after which the drawer of a room is still one of its
participants: a broadcast must get through to the drawer of the room it
addresses (`broadcastDraw` does not send to its sender), and `startNewRound` with
a connection as next drawer, the call of `handleGuess`, must find that connection
among the keys of `Clients`.  Every other section passes. -/
def atomKeepsDrawer (w : World) : Atom → Bool
  | Atom.round code (some ws) _ =>
    match findRoom w.rooms code with
    | none => true
    | some room => decide (ws ∈ clientKeys room.Clients)
  | Atom.broadcast code _ _ fails =>
    match findRoom w.rooms code with
    | none => true
    | some room =>
      match room.CurrentDrawer with
      | none => true
      | some d => !sendErr w.closed fails d
  | Atom.broadcastDraw code _ sender _ fails =>
    match findRoom w.rooms code with
    | none => true
    | some room =>
      match room.CurrentDrawer with
      | none => true
      | some d => decide (d = sender) || !sendErr w.closed fails d
  | _ => true

/-- Runs a list of sections as long as each passes the check `ok` in the state it
meets. -/
def runAtomsVia (ok : World → Atom → Bool) : World → List Atom → Option World
  | w, [] => some w
  | w, a :: rest => if ok w a then runAtomsVia ok (runAtom w a) rest else none

/-- The states reachable from the empty registry by sections that pass the check
`ok` in the state they meet. -/
inductive AtomReachable (ok : World → Atom → Bool) : World → Prop where
  | init : AtomReachable ok World.empty
  | next (w : World) (a : Atom) : AtomReachable ok w → ok w a = true →
      AtomReachable ok (runAtom w a)

/-- The sections that the handler of `ws` runs for one message, when no section
of another handler comes in between. -/
def atomsOf (w : World) (o : Oracle) (ws : Conn) (msg : Message) : List Atom :=
  if msg.Typ = "nickname" then
    if (localOf w ws).roomCode ≠ "" then
      [Atom.assign (localOf w ws).roomCode ws msg.Nickname]
    else []
  else if msg.Typ = "createRoom" then
    [Atom.create (generateRoomCode o.codeRand) ws (localOf w ws).nickname]
  else if msg.Typ = "joinRoom" then
    match findRoom w.rooms msg.RoomCode with
    | none => []
    | some room =>
      if (setClient room.Clients ws (localOf w ws).nickname).length ≥ 2
          ∧ room.CurrentDrawer = none then
        [Atom.assign msg.RoomCode ws (localOf w ws).nickname, Atom.round msg.RoomCode none o]
      else [Atom.assign msg.RoomCode ws (localOf w ws).nickname]
  else if msg.Typ = "message" then
    [Atom.broadcast msg.RoomCode { msg with Nickname := (localOf w ws).nickname } (o.order 0)
      (o.fails 0)]
  else if msg.Typ = "draw" then
    match findRoom w.rooms msg.RoomCode with
    | none => []
    | some room =>
      if some ws ≠ room.CurrentDrawer then []
      else [Atom.broadcastDraw msg.RoomCode msg ws (o.order 0) (o.fails 0)]
  else if msg.Typ = "guess" then
    match findRoom w.rooms msg.RoomCode with
    | none => []
    | some room =>
      if msg.Message = room.WordToDraw then
        [Atom.broadcast msg.RoomCode (guessCorrectMsg (getClient room.Clients ws)) (o.order 0)
          (o.fails 0),
         Atom.broadcast msg.RoomCode clearCanvasMsg (o.order 1) (o.fails 2),
         Atom.round msg.RoomCode (some ws) o]
      else
        [Atom.broadcast msg.RoomCode (chatMsg (getClient room.Clients ws) msg.Message)
          (o.order 0) (o.fails 0)]
  else []

/-- An oracle under which every choice is the first one and no peer is gone. -/
def Oracle.calm : Oracle := ⟨0, 0, 0, fun _ => [], fun _ _ => false⟩

/-! ## Sample sessions -/

/-- A message of the given type that names a room. -/
def mkMsg (typ code : String) : Message := { Typ := typ, RoomCode := code }

/-- Connection 1 creates room `"0"`, connection 2 joins it: a round starts with
connection 1 drawing. -/
def twoPlayerSession : List Event :=
  [Event.recv 1 (mkMsg "createRoom" "") Oracle.calm, Event.recv 2 (mkMsg "joinRoom" "0") Oracle.calm]

/-- The state after `twoPlayerSession`. -/
def twoPlayerWorld : World :=
  ⟨[("0", ⟨"0", [(1, "Anonyme"), (2, "Anonyme")], some 1, "maison"⟩)],
   [(1, ⟨"Anonyme", "0"⟩), (2, ⟨"Anonyme", "0"⟩)], []⟩

/-- Connection 1 creates room `"0"` and then sends a guess with an empty text for
that room. -/
def loneGuessSession : List Event :=
  [Event.recv 1 (mkMsg "createRoom" "") Oracle.calm, Event.recv 1 (mkMsg "guess" "0") Oracle.calm]

/-- A room with three participants and no round. -/
def threePlayerRoom : Room := ⟨"0", [(1, "Ada"), (2, "Bob"), (3, "Cyd")], none, ""⟩

/-- A state whose only room is `threePlayerRoom`. -/
def threePlayerWorld : World := ⟨[("0", threePlayerRoom)], [], []⟩

/-- The peer of connection 2 is gone, the others are there. -/
def failsTwo : Conn → Bool := fun c => c == 2

/-- The guess of the word `"maison"` for room `"0"`. -/
def maisonGuess : Message := { Typ := "guess", RoomCode := "0", Message := "maison" }

/-- Room `"0"` with two participants, before its first round. -/
def twoPlayerRoom : Room := ⟨"0", [(1, "Anonyme"), (2, "Anonyme")], none, ""⟩

/-- An oracle under which the peer of connection `c` is gone and every other
choice is the first one. -/
def Oracle.losing (c : Conn) : Oracle := ⟨0, 0, 0, fun _ => [], fun _ d => d == c⟩

/-- After `twoPlayerSession`, connection 2 sends a chat message and the send of
it to connection 1, the drawer, fails. -/
def drawerLostSession : List Event :=
  twoPlayerSession ++ [Event.recv 2 (mkMsg "message" "0") (Oracle.losing 1)]

/-- The state after `drawerLostSession`: connection 1 is the drawer of room `"0"`
and no longer one of its participants. -/
def drawerLostWorld : World :=
  ⟨[("0", ⟨"0", [(2, "Anonyme")], some 1, "maison"⟩)],
   [(1, ⟨"Anonyme", "0"⟩), (2, ⟨"Anonyme", "0"⟩)], [1]⟩

/-- Connection 1 creates room `"0"`; connection 2, which never joined, sends a
guess with an empty text for it. -/
def strangerGuessSession : List Event :=
  [Event.recv 1 (mkMsg "createRoom" "") Oracle.calm, Event.recv 2 (mkMsg "guess" "0") Oracle.calm]

/-- A state in which room `"0"` has a round going on and connection 3 has set its
name to `"Cyd"` without being in a room. -/
def activeRoundWorld : World :=
  ⟨[("0", ⟨"0", [(1, "Anonyme"), (2, "Anonyme")], some 1, "maison"⟩)],
   [(1, ⟨"Anonyme", "0"⟩), (2, ⟨"Anonyme", "0"⟩), (3, ⟨"Cyd", ""⟩)], []⟩

/-- An oracle under which `generateRoomCode` draws `r` and every other choice is
the first one. -/
def Oracle.drawing (r : Nat) : Oracle := ⟨r, 0, 0, fun _ => [], fun _ _ => false⟩

/-- After `twoPlayerSession`, connection 3 creates a room of its own, room `"1"`. -/
def twoRoomSession : List Event :=
  twoPlayerSession ++ [Event.recv 3 (mkMsg "createRoom" "") (Oracle.drawing 1)]

/-- The state after `twoRoomSession`: connections 1 and 2 are in room `"0"`,
connection 3 is alone in room `"1"`. -/
def twoRoomWorld : World :=
  ⟨[("0", ⟨"0", [(1, "Anonyme"), (2, "Anonyme")], some 1, "maison"⟩),
    ("1", ⟨"1", [(3, "Anonyme")], none, ""⟩)],
   [(1, ⟨"Anonyme", "0"⟩), (2, ⟨"Anonyme", "0"⟩), (3, ⟨"Anonyme", "1"⟩)], []⟩

/-- A chat message that names room `"0"`. -/
def helloMsg : Message := { Typ := "message", RoomCode := "0", Message := "hello" }

/-- A room without drawer, or with a word of `wordList` as `WordToDraw`. -/
def wordIsSet (r : Room) : Prop :=
  r.CurrentDrawer ≠ none → r.WordToDraw ∈ wordList ∧ r.WordToDraw ≠ ""

/-- Every room of the registry that has a drawer has a word of `wordList`. -/
def wordInvariant (w : World) : Prop :=
  ∀ code room, findRoom w.rooms code = some room → wordIsSet room

/-- The state after connection 1 created room `"0"`, connection 3 created room
`"1"` and the read on connection 1 failed. -/
def createdWorld : World :=
  ⟨[("0", ⟨"0", [(1, "Anonyme")], none, ""⟩), ("1", ⟨"1", [(3, "Anonyme")], none, ""⟩)],
   [(1, ⟨"Anonyme", "0"⟩), (3, ⟨"Anonyme", "1"⟩)], [1]⟩

/-- Every handler that remembers a room code remembers the code of a room of the
registry. -/
def localInvariant (w : World) : Prop :=
  ∀ c, (localOf w c).roomCode ≠ "" → findRoom w.rooms (localOf w c).roomCode ≠ none

/-- A `nickname` message with the name `"Zoe"`. -/
def zoeMsg : Message := { Typ := "nickname", Nickname := "Zoe" }

/-- A guess for room `"0"` that is not its word. -/
def wrongGuess : Message := { Typ := "guess", RoomCode := "0", Message := "soleil" }

/-- A stroke for room `"0"`. -/
def strokeMsg : Message := { Typ := "draw", RoomCode := "0", X := 3, Y := 4, PrevX := 1, PrevY := 2 }

/-- Connection 1 creates room `"0"`, connections 2 and 3 join and a round starts.
Connection 2 guesses the word: between the two broadcasts of its `handleGuess`, a
chat broadcast of another handler runs, whose send to connection 3 fails.  Then
the new drawer, connection 2, sends a stroke that connection 1 does not get, and
the handler of connection 1 ends. -/
def interleavedAtoms : List Atom :=
  [Atom.create "0" 1 "Anonyme",
   Atom.assign "0" 2 "Anonyme",
   Atom.round "0" none Oracle.calm,
   Atom.assign "0" 3 "Anonyme",
   Atom.broadcast "0" (guessCorrectMsg "Anonyme") [] (fun _ => false),
   Atom.broadcast "0" helloMsg [] (fun c => c == 3),
   Atom.broadcast "0" clearCanvasMsg [] (fun _ => false),
   Atom.round "0" (some 2) Oracle.calm,
   Atom.broadcastDraw "0" strokeMsg 2 [] (fun c => c == 1),
   Atom.close 1]

/-- The state after `interleavedAtoms`. -/
def interleavedWorld : World :=
  ⟨[("0", ⟨"0", [(2, "Anonyme")], some 2, "maison"⟩)], [], [1, 3]⟩

/-- The matching guess of connection 3 in room `"0"`, cut in two by a chat
broadcast of another handler whose send to connection 3 fails: connection 3 is
deleted from the room before `startNewRound` makes it the drawer. -/
def evictedGuesserAtoms : List Atom :=
  [Atom.create "0" 1 "Anonyme",
   Atom.assign "0" 2 "Anonyme",
   Atom.round "0" none Oracle.calm,
   Atom.assign "0" 3 "Anonyme",
   Atom.broadcast "0" (guessCorrectMsg "Anonyme") [] (fun _ => false),
   Atom.broadcast "0" clearCanvasMsg [] (fun _ => false),
   Atom.broadcast "0" helloMsg [] (fun c => c == 3),
   Atom.round "0" (some 3) Oracle.calm]

/-- Three connections in room `"0"`.  The chat message of connection 3 fails to
reach connection 3 itself, which is closed and deleted from the room; the next
frame of connection 3, already read, is a guess of the word. -/
def closedGuesserSession : List Event :=
  twoPlayerSession ++
    [Event.recv 3 (mkMsg "joinRoom" "0") Oracle.calm,
     Event.recv 3 helloMsg (Oracle.losing 3),
     Event.recv 3 maisonGuess Oracle.calm]

end Guesswatch

/-! # Theorems -/

namespace Guesswatch

/-! ## Association lists -/

theorem findRoom_putRoom_same (rooms : List (String × Room)) (code : String) (room : Room) :
    findRoom (putRoom rooms code room) code = some room := by
  induction rooms with
  | nil => simp [putRoom, findRoom, List.lookup]
  | cons p rest ih =>
    obtain ⟨k, v⟩ := p
    by_cases hk : k = code
    · simp [putRoom, hk, findRoom, List.lookup]
    · have hne : (code == k) = false := by simpa using fun h => hk h.symm
      simpa [putRoom, hk, findRoom, List.lookup, hne] using ih

theorem findRoom_putRoom_other (rooms : List (String × Room)) (code other : String) (room : Room)
    (h : other ≠ code) : findRoom (putRoom rooms code room) other = findRoom rooms other := by
  induction rooms with
  | nil =>
    have hne : (other == code) = false := by simpa using h
    simp [putRoom, findRoom, List.lookup, hne]
  | cons p rest ih =>
    obtain ⟨k, v⟩ := p
    by_cases hk : k = code
    · have hne : (other == code) = false := by simpa using h
      simp [putRoom, hk, findRoom, List.lookup, hne]
    · by_cases ho : other = k
      · have he : (other == k) = true := by simpa using ho
        simp [putRoom, hk, findRoom, List.lookup, he]
      · have hne : (other == k) = false := by simpa using ho
        simpa [putRoom, hk, findRoom, List.lookup, hne] using ih

theorem putRoom_self (rooms : List (String × Room)) (code : String) (room : Room)
    (h : findRoom rooms code = some room) : putRoom rooms code room = rooms := by
  induction rooms with
  | nil => simp [findRoom, List.lookup] at h
  | cons p rest ih =>
    obtain ⟨k, v⟩ := p
    by_cases hk : k = code
    · have he : (code == k) = true := by simpa using hk.symm
      simp only [findRoom, List.lookup, he] at h
      simp only [Option.some.injEq] at h
      simp [putRoom, hk, h]
    · have hne : (code == k) = false := by simpa using fun h => hk h.symm
      simp only [findRoom, List.lookup, hne] at h
      simp [putRoom, hk, ih h]

theorem rangeKeys_perm (ord : List Conn) (m : ClientMap) :
    (rangeKeys ord m).Perm (clientKeys m) := by
  unfold rangeKeys
  split
  · assumption
  · exact List.Perm.refl _

theorem rangeKeys_of_perm (ord : List Conn) (m : ClientMap) (h : ord.Perm (clientKeys m)) :
    rangeKeys ord m = ord := by
  simp [rangeKeys, h]

theorem mem_rangeKeys (ord : List Conn) (m : ClientMap) (c : Conn) :
    c ∈ rangeKeys ord m ↔ c ∈ clientKeys m := (rangeKeys_perm ord m).mem_iff

theorem pickWord_mem (r : Nat) : pickWord r ∈ wordList := by
  unfold pickWord
  exact List.get_mem _ _ _

/-! ## The dispatch on the message type -/

theorem handleMessage_createRoom (w : World) (o : Oracle) (ws : Conn) (msg : Message)
    (h : msg.Typ = "createRoom") : handleMessage w o ws msg = some (handleCreateRoom w o ws) := by
  simp [handleMessage, h]

theorem handleMessage_joinRoom (w : World) (o : Oracle) (ws : Conn) (msg : Message)
    (h : msg.Typ = "joinRoom") : handleMessage w o ws msg = some (handleJoinRoom w o ws msg) := by
  simp [handleMessage, h]

theorem handleMessage_chat (w : World) (o : Oracle) (ws : Conn) (msg : Message)
    (h : msg.Typ = "message") : handleMessage w o ws msg = some (handleChat w o ws msg) := by
  simp [handleMessage, h]

theorem handleMessage_draw (w : World) (o : Oracle) (ws : Conn) (msg : Message)
    (h : msg.Typ = "draw") : handleMessage w o ws msg = some (handleDraw w o ws msg) := by
  simp [handleMessage, h]

theorem handleMessage_guess (w : World) (o : Oracle) (ws : Conn) (msg : Message)
    (h : msg.Typ = "guess") : handleMessage w o ws msg = some (handleGuess w o ws msg) := by
  simp [handleMessage, h]

theorem handleMessage_nickname (w : World) (o : Oracle) (ws : Conn) (msg : Message)
    (h : msg.Typ = "nickname") : handleMessage w o ws msg = handleNickname w ws msg := by
  simp [handleMessage, h]

/-! ## Strokes of a connection that is not the drawer -/

/-- C4: when `ws` is not the `CurrentDrawer` of the room named by a draw message
(the room has another drawer, has none, or does not exist), `handleDraw` attempts
no send and returns the state it was given. -/
theorem handleDraw_nonDrawer_dropped (w : World) (o : Oracle) (ws : Conn) (msg : Message)
    (h : (findRoom w.rooms msg.RoomCode).bind (fun r => r.CurrentDrawer) ≠ some ws) :
    handleDraw w o ws msg = (w, []) := by
  unfold handleDraw
  cases hr : findRoom w.rooms msg.RoomCode with
  | none => rfl
  | some room =>
    have hd : some ws ≠ room.CurrentDrawer := by
      intro he
      apply h
      simp [hr, he]
    simp [hd]

/-- C4, at a concrete state: connection 2 is not the drawer of room `"0"`, and
its stroke for that room is dropped. -/
theorem handleDraw_nonDrawer_dropped_witness :
    (findRoom twoPlayerWorld.rooms (mkMsg "draw" "0").RoomCode).bind (fun r => r.CurrentDrawer)
        ≠ some 2 ∧
      handleDraw twoPlayerWorld Oracle.calm 2 (mkMsg "draw" "0") = (twoPlayerWorld, []) :=
  ⟨by decide, handleDraw_nonDrawer_dropped twoPlayerWorld Oracle.calm 2 (mkMsg "draw" "0")
    (by decide)⟩

/-! ## Joining a room that does not exist -/

/-- C6: a `joinRoom` message whose code is not a key of `rooms` makes the handler
attempt exactly one send, an `error` message to the requester, and leaves the
whole state as it was: the rooms, and the `roomCode` and `nickname` remembered by
every handler. -/
theorem joinRoom_unknown_code_rejected (w : World) (o : Oracle) (ws : Conn) (msg : Message)
    (hT : msg.Typ = "joinRoom") (h : findRoom w.rooms msg.RoomCode = none) :
    handleMessage w o ws msg =
      some (w, [writeJSON w.closed (o.fails 0) ws { Typ := "error", Message := "Room not found" }]) := by
  rw [handleMessage_joinRoom w o ws msg hT]
  simp only [handleJoinRoom, h]

/-- C6, at a concrete state: room `"7"` does not exist after `twoPlayerSession`. -/
theorem joinRoom_unknown_code_rejected_witness :
    (mkMsg "joinRoom" "7").Typ = "joinRoom" ∧ findRoom twoPlayerWorld.rooms (mkMsg "joinRoom" "7").RoomCode = none ∧
      handleMessage twoPlayerWorld Oracle.calm 3 (mkMsg "joinRoom" "7") =
        some (twoPlayerWorld, [writeJSON twoPlayerWorld.closed (Oracle.calm.fails 0) 3
          { Typ := "error", Message := "Room not found" }]) :=
  ⟨by decide, by decide,
    joinRoom_unknown_code_rejected twoPlayerWorld Oracle.calm 3 (mkMsg "joinRoom" "7")
      (by decide) (by decide)⟩

/-! ## A round in a room without participants -/

/-- C7, as stated, fails: in a room without participants and without a word,
`startNewRound(room, nil)` stores a word of `wordList`. -/
theorem startNewRound_empty_room_sets_word :
    (startNewRound [] Oracle.calm ⟨"0", [], none, ""⟩ none).1.WordToDraw = "maison" ∧
      (startNewRound [] Oracle.calm ⟨"0", [], none, ""⟩ none).1.WordToDraw
        ≠ (⟨"0", [], none, ""⟩ : Room).WordToDraw := by
  decide

/-- C7, amended: in a room whose `Clients` map is empty, `startNewRound(room, nil)`
returns, attempts no send, leaves the room without a drawer whatever the drawer
was before, and stores as `WordToDraw` the word of `wordList` picked by the random
index. -/
theorem startNewRound_empty_room (closed : List Conn) (o : Oracle) (room : Room)
    (h : room.Clients = []) :
    startNewRound closed o room none =
        ({ room with CurrentDrawer := none, WordToDraw := pickWord o.wordRand }, []) ∧
      pickWord o.wordRand ∈ wordList := by
  refine ⟨?_, pickWord_mem _⟩
  have hk : rangeKeys (o.order 2) room.Clients = [] := by
    have := rangeKeys_perm (o.order 2) room.Clients
    rw [h] at this ⊢
    simpa [clientKeys] using this
  have hk3 : rangeKeys (o.order 3) room.Clients = [] := by
    have := rangeKeys_perm (o.order 3) room.Clients
    rw [h] at this ⊢
    simpa [clientKeys] using this
  have hd : nextDrawerOf o room none = none := by
    unfold nextDrawerOf
    cases room.CurrentDrawer <;> simp [hk, getRandomPlayer, getNextPlayer]
  simp [startNewRound, hd, hk3]

/-- C7, amended, at a concrete room: a drawer left over in an empty room is
cleared. -/
theorem startNewRound_empty_room_witness :
    (⟨"0", [], some 5, "chat"⟩ : Room).Clients = [] ∧
      startNewRound [] Oracle.calm ⟨"0", [], some 5, "chat"⟩ none =
        ({ (⟨"0", [], some 5, "chat"⟩ : Room) with
            CurrentDrawer := none, WordToDraw := pickWord Oracle.calm.wordRand }, []) ∧
      pickWord Oracle.calm.wordRand ∈ wordList :=
  ⟨rfl, startNewRound_empty_room [] Oracle.calm ⟨"0", [], some 5, "chat"⟩ rfl⟩

/-! ## Creating a room -/

theorem twoPlayerSession_run :
    (run World.empty twoPlayerSession).map Prod.fst = some twoPlayerWorld := by
  decide

/-- C8, as stated, fails: after `twoPlayerSession` room `"0"` has two participants,
a drawer and a word; a `createRoom` message for which `generateRoomCode` returns
`"0"` again puts a new room with the creator alone in its place. -/
theorem createRoom_replaces_existing_room :
    findRoom twoPlayerWorld.rooms "0"
        = some ⟨"0", [(1, "Anonyme"), (2, "Anonyme")], some 1, "maison"⟩ ∧
      generateRoomCode Oracle.calm.codeRand = "0" ∧
      (step twoPlayerWorld (Event.recv 3 (mkMsg "createRoom" "") Oracle.calm)).map
          (fun p => findRoom p.1.rooms "0")
        = some (some ⟨"0", [(3, "Anonyme")], none, ""⟩) := by
  decide

/-- C8, amended: the `createRoom` case stores a new room under the generated code
without looking the code up first.  Every other code maps to the same room as
before, and the generated code maps to a room whose only participant is the
creator, without drawer and without word, whatever was stored there before. -/
theorem createRoom_keeps_other_codes (w : World) (o : Oracle) (ws : Conn) (msg : Message)
    (hT : msg.Typ = "createRoom") :
    ∃ w1 tr, handleMessage w o ws msg = some (w1, tr) ∧
      findRoom w1.rooms (generateRoomCode o.codeRand)
        = some ⟨generateRoomCode o.codeRand, [(ws, (localOf w ws).nickname)], none, ""⟩ ∧
      ∀ code, code ≠ generateRoomCode o.codeRand →
        findRoom w1.rooms code = findRoom w.rooms code := by
  refine ⟨(handleCreateRoom w o ws).1, (handleCreateRoom w o ws).2,
    handleMessage_createRoom w o ws msg hT, ?_, ?_⟩
  · simp [handleCreateRoom, findRoom_putRoom_same, setClient]
  · intro code hc
    simp [handleCreateRoom, findRoom_putRoom_other _ _ _ _ hc]

/-- C8, amended, at a concrete state: connection 3 creates a room after
`twoPlayerSession`. -/
theorem createRoom_keeps_other_codes_witness :
    (mkMsg "createRoom" "").Typ = "createRoom" ∧
      ∃ w1 tr, handleMessage twoPlayerWorld Oracle.calm 3 (mkMsg "createRoom" "") = some (w1, tr) ∧
        findRoom w1.rooms (generateRoomCode Oracle.calm.codeRand)
          = some ⟨generateRoomCode Oracle.calm.codeRand,
              [(3, (localOf twoPlayerWorld 3).nickname)], none, ""⟩ ∧
        ∀ code, code ≠ generateRoomCode Oracle.calm.codeRand →
          findRoom w1.rooms code = findRoom twoPlayerWorld.rooms code :=
  ⟨by decide,
    createRoom_keeps_other_codes twoPlayerWorld Oracle.calm 3 (mkMsg "createRoom" "") (by decide)⟩

/-! ## A round with a single participant -/

/-- C9, the code at the failing input: connection 1 creates room `"0"` and sends a
guess with an empty text for it.  No send fails, and afterwards the room has
connection 1 as drawer and as only participant. -/
theorem guess_on_idle_room_starts_round :
    (run World.empty loneGuessSession).map (fun p => (p.1.rooms, p.2.all (fun s => s.ok)))
      = some ([("0", ⟨"0", [(1, "Anonyme")], some 1, "maison"⟩)], true) := by
  decide

/-! ## The end of a handler -/

/-- C10, the code at the failing input: after `twoPlayerSession` the read on
connection 1 fails.  The handler only closes the connection: connection 1 is still
a key of `Clients` of room `"0"` and still its drawer. -/
theorem receive_failure_keeps_participant :
    (run World.empty (twoPlayerSession ++ [Event.recvFail 1])).map
        (fun p => (p.1.rooms, p.1.closed))
      = some ([("0", ⟨"0", [(1, "Anonyme"), (2, "Anonyme")], some 1, "maison"⟩)], [1]) := by
  decide

/-! ## The broadcast loop -/

theorem sendErr_closeConn_of_ne (closed : List Conn) (fails : Conn → Bool) (c d : Conn)
    (h : d ≠ c) : sendErr (closeConn closed c) fails d = sendErr closed fails d := by
  unfold sendErr closeConn
  split
  · rfl
  · simp [h]

theorem broadcastMessageLoop_trace (fails : Conn → Bool) (msg : Message) (keys : List Conn) :
    ∀ (clients : ClientMap) (closed : List Conn), keys.Nodup →
      (broadcastMessageLoop fails msg keys clients closed).2
        = keys.map (fun c => writeJSON closed fails c msg) := by
  induction keys with
  | nil => intro clients closed _; rfl
  | cons c rest ih =>
    intro clients closed hnd
    have hc : c ∉ rest := (List.nodup_cons.mp hnd).1
    have hr : rest.Nodup := (List.nodup_cons.mp hnd).2
    unfold broadcastMessageLoop
    split
    · simp only [List.map_cons, List.cons.injEq, true_and]
      rw [ih _ _ hr]
      apply List.map_congr_left
      intro d hd
      have hne : d ≠ c := fun h => hc (h ▸ hd)
      simp [writeJSON, sendErr_closeConn_of_ne closed fails c d hne]
    · simp only [List.map_cons, List.cons.injEq, true_and]
      exact ih _ _ hr

theorem broadcastMessageLoop_clients (fails : Conn → Bool) (msg : Message) (keys : List Conn) :
    ∀ (clients : ClientMap) (closed : List Conn), keys.Nodup →
      (broadcastMessageLoop fails msg keys clients closed).1.1
        = clients.filter (fun p => !(decide (p.1 ∈ keys) && sendErr closed fails p.1)) := by
  induction keys with
  | nil => intro clients closed _; simp [broadcastMessageLoop]
  | cons c rest ih =>
    intro clients closed hnd
    have hc : c ∉ rest := (List.nodup_cons.mp hnd).1
    have hr : rest.Nodup := (List.nodup_cons.mp hnd).2
    unfold broadcastMessageLoop
    split
    · rename_i herr
      simp only
      rw [ih _ _ hr, deleteClient, List.filter_filter]
      apply List.filter_congr
      intro p _
      by_cases hpc : p.1 = c
      · simp [hpc, herr]
      · have := sendErr_closeConn_of_ne closed fails c p.1 hpc
        simp [hpc, this]
    · rename_i herr
      simp only
      rw [ih _ _ hr]
      apply List.filter_congr
      intro p _
      by_cases hpc : p.1 = c
      · simp [hpc, herr, hc]
      · simp [hpc]

theorem broadcastMessageLoop_noFail (fails : Conn → Bool) (msg : Message) (keys : List Conn)
    (clients : ClientMap) (closed : List Conn)
    (h : ∀ c ∈ keys, sendErr closed fails c = false) :
    broadcastMessageLoop fails msg keys clients closed
      = ((clients, closed), keys.map (fun c => ⟨c, msg, true⟩)) := by
  induction keys with
  | nil => rfl
  | cons c rest ih =>
    have h1 : sendErr closed fails c = false := h c (List.mem_cons_self _ _)
    have h2 := ih (fun d hd => h d (List.mem_cons_of_mem _ hd))
    simp [broadcastMessageLoop, h1, h2, writeJSON]

/-- C5: `broadcastMessage` in a room with distinct keys, where a send to `c` fails
exactly when `sendErr w.closed fails c` holds.  Only participants are sent to;
every participant present at the start gets exactly one send attempt, carrying
the message, which goes through exactly when the participant is not failing; and
afterwards the room's `Clients` is the original map without the failing keys,
the other entries keeping their names and the room its other fields. -/
theorem broadcastMessage_tolerates_failure (w : World) (ord : List Conn) (fails : Conn → Bool)
    (msg : Message) (code : String) (room : Room)
    (hr : findRoom w.rooms code = some room) (hnd : (clientKeys room.Clients).Nodup) :
    (∀ s ∈ (broadcastMessage w ord fails msg code).2, s.dest ∈ clientKeys room.Clients) ∧
      (∀ c ∈ clientKeys room.Clients,
        (broadcastMessage w ord fails msg code).2.filter (fun s => decide (s.dest = c))
          = [⟨c, msg, !sendErr w.closed fails c⟩]) ∧
      findRoom (broadcastMessage w ord fails msg code).1.rooms code
        = some { room with
            Clients := room.Clients.filter (fun p => !sendErr w.closed fails p.1) } := by
  have hp := rangeKeys_perm ord room.Clients
  have hnd2 : (rangeKeys ord room.Clients).Nodup := hp.nodup_iff.mpr hnd
  have htr : (broadcastMessage w ord fails msg code).2
      = (rangeKeys ord room.Clients).map (fun c => writeJSON w.closed fails c msg) := by
    simp only [broadcastMessage, hr]
    exact broadcastMessageLoop_trace fails msg _ _ _ hnd2
  refine ⟨?_, ?_, ?_⟩
  · intro s hs
    rw [htr] at hs
    obtain ⟨c, hc, rfl⟩ := List.mem_map.mp hs
    exact (mem_rangeKeys ord room.Clients c).mp hc
  · intro c hc
    have hc2 : c ∈ rangeKeys ord room.Clients := (mem_rangeKeys ord room.Clients c).mpr hc
    rw [htr, List.filter_map]
    have hf : (rangeKeys ord room.Clients).filter
        ((fun s : Send => decide (s.dest = c)) ∘ fun c => writeJSON w.closed fails c msg) = [c] := by
      have h1 : (rangeKeys ord room.Clients).filter (fun d => decide (d = c)) = [c] := by
        rw [List.filter_eq, List.count_eq_one_of_mem hnd2 hc2]
        rfl
      rw [← h1]
      apply List.filter_congr
      intro d _
      simp [writeJSON]
    rw [hf]
    rfl
  · simp only [broadcastMessage, hr, findRoom_putRoom_same]
    rw [broadcastMessageLoop_clients fails msg _ _ _ hnd2]
    congr 2
    apply List.filter_congr
    intro p hpm
    have : p.1 ∈ rangeKeys ord room.Clients :=
      (mem_rangeKeys ord room.Clients p.1).mpr (List.mem_map_of_mem _ hpm)
    simp [this]

/-- C5, in a room of three where the send to connection 2 fails: connections 1
and 3 get the message, and connection 2 is gone from the room afterwards. -/
theorem broadcastMessage_tolerates_failure_witness :
    findRoom threePlayerWorld.rooms "0" = some threePlayerRoom ∧
      (clientKeys threePlayerRoom.Clients).Nodup ∧
      ((∀ s ∈ (broadcastMessage threePlayerWorld [3, 1, 2] failsTwo (mkMsg "message" "0") "0").2,
          s.dest ∈ clientKeys threePlayerRoom.Clients) ∧
        (∀ c ∈ clientKeys threePlayerRoom.Clients,
          (broadcastMessage threePlayerWorld [3, 1, 2] failsTwo (mkMsg "message" "0") "0").2.filter
              (fun s => decide (s.dest = c))
            = [⟨c, mkMsg "message" "0", !sendErr threePlayerWorld.closed failsTwo c⟩]) ∧
        findRoom (broadcastMessage threePlayerWorld [3, 1, 2] failsTwo (mkMsg "message" "0") "0").1.rooms
            "0"
          = some { threePlayerRoom with
              Clients := threePlayerRoom.Clients.filter
                (fun p => !sendErr threePlayerWorld.closed failsTwo p.1) }) :=
  ⟨by decide, by decide,
    broadcastMessage_tolerates_failure threePlayerWorld [3, 1, 2] failsTwo (mkMsg "message" "0")
      "0" threePlayerRoom (by decide) (by decide)⟩

theorem broadcastMessage_three_sample :
    broadcastMessage threePlayerWorld [3, 1, 2] failsTwo (mkMsg "message" "0") "0"
      = (⟨[("0", ⟨"0", [(1, "Ada"), (3, "Cyd")], none, ""⟩)], [], [2]⟩,
          [⟨3, mkMsg "message" "0", true⟩, ⟨1, mkMsg "message" "0", true⟩,
            ⟨2, mkMsg "message" "0", false⟩]) := by
  decide

/-! ## A correct guess -/

theorem broadcastMessage_noFail (w : World) (ord : List Conn) (fails : Conn → Bool)
    (msg : Message) (code : String) (room : Room) (hr : findRoom w.rooms code = some room)
    (hok : ∀ c ∈ clientKeys room.Clients, sendErr w.closed fails c = false) :
    broadcastMessage w ord fails msg code
      = (w, (rangeKeys ord room.Clients).map (fun c => ⟨c, msg, true⟩)) := by
  have h1 : ∀ c ∈ rangeKeys ord room.Clients, sendErr w.closed fails c = false :=
    fun c hc => hok c ((mem_rangeKeys ord room.Clients c).mp hc)
  simp only [broadcastMessage, hr, broadcastMessageLoop_noFail fails msg _ _ _ h1]
  have h2 : putRoom w.rooms code { room with Clients := room.Clients } = w.rooms :=
    putRoom_self w.rooms code room hr
  rw [h2]

theorem startNewRound_given_drawer (closed : List Conn) (o : Oracle) (room : Room) (g : Conn) :
    startNewRound closed o room (some g)
      = ({ room with CurrentDrawer := some g, WordToDraw := pickWord o.wordRand },
          writeJSON closed (o.fails 3) g (yourWordMsg (pickWord o.wordRand)) ::
            ((rangeKeys (o.order 3) room.Clients).filter (fun c => decide (c ≠ g))).map
              (fun c => writeJSON closed (o.fails 4) c startGuessingMsg)) := by
  simp [startNewRound, nextDrawerOf]

theorem pickWord_eq (r : Nat) : wordList[r % wordList.length]? = some (pickWord r) := by
  have hlt : r % wordList.length < wordList.length := Nat.mod_lt _ (by decide)
  rw [List.getElem?_eq_getElem hlt]
  rfl

/-- C2: in an existing room, a guess by participant `g`, whose entry in `Clients`
is the name `n`, with a text equal to `WordToDraw`, when no send to a participant
fails.  The sends of `handleGuess` are, in this order: to every participant the
message of type `guessCorrect` that names `n`, to `g` the message of type
`youWon`, to every participant the message of type `clearCanvas`, to `g` the
message of type `yourWord` whose text is the new word, and to the participants
other than `g` the message of type `startGuessing`; each of the three loops runs
over an enumeration of the keys and every send is delivered.  The new word is
`wordList[r % len(wordList)]` for the random value `r`.  Afterwards
`CurrentDrawer` is `g` and `WordToDraw` is the new word; the other fields of the
room are unchanged. -/
theorem handleGuess_correct_sequence (w : World) (o : Oracle) (g : Conn) (msg : Message)
    (room : Room) (n : String) (hr : findRoom w.rooms msg.RoomCode = some room)
    (hg : g ∈ clientKeys room.Clients) (hn : room.Clients.lookup g = some n)
    (hword : msg.Message = room.WordToDraw)
    (hok : ∀ c ∈ clientKeys room.Clients, ∀ i, sendErr w.closed (o.fails i) c = false) :
    ∃ (e1 e2 e3 : List Conn) (word : String),
      e1.Perm (clientKeys room.Clients) ∧ e2.Perm (clientKeys room.Clients) ∧
      e3.Perm (clientKeys room.Clients) ∧
      wordList[o.wordRand % wordList.length]? = some word ∧ word ∈ wordList ∧
      (handleGuess w o g msg).2
        = e1.map (fun c =>
              ⟨c, { Typ := "guessCorrect", Message := n ++ " a deviné le mot !" }, true⟩)
          ++ [⟨g, { Typ := "youWon",
                    Message := "Vous avez gagné un point, c'est votre tour de dessiner !" },
                true⟩]
          ++ e2.map (fun c => ⟨c, { Typ := "clearCanvas" }, true⟩)
          ++ [⟨g, { Typ := "yourWord", Message := word }, true⟩]
          ++ (e3.filter (fun c => decide (c ≠ g))).map
              (fun c =>
                ⟨c, { Typ := "startGuessing",
                      Message := "Un joueur dessine, essayez de deviner le mot !" }, true⟩) ∧
      findRoom (handleGuess w o g msg).1.rooms msg.RoomCode
        = some { room with CurrentDrawer := some g, WordToDraw := word } := by
  have hname : getClient room.Clients g = n := by simp [getClient, hn]
  have hb1 := broadcastMessage_noFail w (o.order 0) (o.fails 0)
    (guessCorrectMsg (getClient room.Clients g)) msg.RoomCode room hr (fun c hc => hok c hc 0)
  have hb2 := broadcastMessage_noFail w (o.order 1) (o.fails 2) clearCanvasMsg msg.RoomCode
    room hr (fun c hc => hok c hc 2)
  refine ⟨rangeKeys (o.order 0) room.Clients, rangeKeys (o.order 1) room.Clients,
    rangeKeys (o.order 3) room.Clients, pickWord o.wordRand, rangeKeys_perm _ _,
    rangeKeys_perm _ _, rangeKeys_perm _ _, pickWord_eq _, pickWord_mem _, ?_, ?_⟩
  · simp only [handleGuess, hr, hword, if_true, hb1, hb2, startNewRound_given_drawer]
    have hw3 : sendErr w.closed (o.fails 3) g = false := hok g hg 3
    have hw1 : sendErr w.closed (o.fails 1) g = false := hok g hg 1
    have hmap : ((rangeKeys (o.order 3) room.Clients).filter (fun c => decide (c ≠ g))).map
          (fun c => writeJSON w.closed (o.fails 4) c startGuessingMsg)
        = ((rangeKeys (o.order 3) room.Clients).filter (fun c => decide (c ≠ g))).map
          (fun c => (⟨c, startGuessingMsg, true⟩ : Send)) := by
      apply List.map_congr_left
      intro c hc
      have hc2 : c ∈ clientKeys room.Clients :=
        (mem_rangeKeys _ _ c).mp (List.mem_of_mem_filter hc)
      simp [writeJSON, hok c hc2 4]
    rw [hmap, hname]
    simp [writeJSON, hw1, hw3, guessCorrectMsg, youWonMsg, clearCanvasMsg, yourWordMsg,
      startGuessingMsg]
  · simp only [handleGuess, hr, hword, if_true, hb1, hb2, startNewRound_given_drawer,
      findRoom_putRoom_same]

/-- C2, at a concrete state: connection 2 guesses `"maison"` in room `"0"` after
`twoPlayerSession`. -/
theorem handleGuess_correct_sequence_witness :
    findRoom twoPlayerWorld.rooms maisonGuess.RoomCode
        = some ⟨"0", [(1, "Anonyme"), (2, "Anonyme")], some 1, "maison"⟩ ∧
      ∃ (e1 e2 e3 : List Conn) (word : String),
        e1.Perm [1, 2] ∧ e2.Perm [1, 2] ∧ e3.Perm [1, 2] ∧
        wordList[Oracle.calm.wordRand % wordList.length]? = some word ∧ word ∈ wordList ∧
        (handleGuess twoPlayerWorld Oracle.calm 2 maisonGuess).2
          = e1.map (fun c =>
                ⟨c, { Typ := "guessCorrect", Message := "Anonyme" ++ " a deviné le mot !" },
                  true⟩)
            ++ [⟨2, { Typ := "youWon",
                      Message := "Vous avez gagné un point, c'est votre tour de dessiner !" },
                  true⟩]
            ++ e2.map (fun c => ⟨c, { Typ := "clearCanvas" }, true⟩)
            ++ [⟨2, { Typ := "yourWord", Message := word }, true⟩]
            ++ (e3.filter (fun c => decide (c ≠ 2))).map
                (fun c =>
                  ⟨c, { Typ := "startGuessing",
                        Message := "Un joueur dessine, essayez de deviner le mot !" }, true⟩) ∧
        findRoom (handleGuess twoPlayerWorld Oracle.calm 2 maisonGuess).1.rooms maisonGuess.RoomCode
          = some ⟨"0", [(1, "Anonyme"), (2, "Anonyme")], some 2, word⟩ :=
  ⟨by decide,
    handleGuess_correct_sequence twoPlayerWorld Oracle.calm 2 maisonGuess
      ⟨"0", [(1, "Anonyme"), (2, "Anonyme")], some 1, "maison"⟩ "Anonyme" (by decide)
      (by decide) (by decide) (by decide)
      (by intro c _ i; simp [sendErr, twoPlayerWorld, Oracle.calm])⟩

theorem handleGuess_correct_sample :
    handleGuess twoPlayerWorld Oracle.calm 2 maisonGuess
      = (⟨[("0", ⟨"0", [(1, "Anonyme"), (2, "Anonyme")], some 2, "maison"⟩)],
            [(1, ⟨"Anonyme", "0"⟩), (2, ⟨"Anonyme", "0"⟩)], []⟩,
          [⟨1, { Typ := "guessCorrect", Message := "Anonyme a deviné le mot !" }, true⟩,
           ⟨2, { Typ := "guessCorrect", Message := "Anonyme a deviné le mot !" }, true⟩,
           ⟨2, { Typ := "youWon",
                 Message := "Vous avez gagné un point, c'est votre tour de dessiner !" }, true⟩,
           ⟨1, { Typ := "clearCanvas" }, true⟩,
           ⟨2, { Typ := "clearCanvas" }, true⟩,
           ⟨2, { Typ := "yourWord", Message := "maison" }, true⟩,
           ⟨1, { Typ := "startGuessing",
                 Message := "Un joueur dessine, essayez de deviner le mot !" }, true⟩]) := by
  decide

/-! ## The first round of two players and the swap -/

theorem getRandomPlayer_some (keys : List Conn) (r : Nat) (h : keys ≠ []) :
    ∃ c, getRandomPlayer keys r = some c ∧ c ∈ keys := by
  have hpos : 0 < keys.length := List.length_pos.mpr h
  have hlt : r % keys.length < keys.length := Nat.mod_lt _ hpos
  refine ⟨keys[r % keys.length], ?_, List.getElem_mem _⟩
  have hne : keys.length ≠ 0 := Nat.pos_iff_ne_zero.mp hpos
  simp [getRandomPlayer, hne, List.getElem?_eq_getElem hlt]

theorem findRoom_broadcastMessage_same (w : World) (ord : List Conn) (fails : Conn → Bool)
    (msg : Message) (code : String) (room : Room) (hr : findRoom w.rooms code = some room) :
    ∃ cl, findRoom (broadcastMessage w ord fails msg code).1.rooms code
      = some { room with Clients := cl } := by
  simp only [broadcastMessage, hr, findRoom_putRoom_same]
  exact ⟨_, rfl⟩

theorem handleGuess_correct_drawer (w : World) (o : Oracle) (g : Conn) (msg : Message)
    (room : Room) (hr : findRoom w.rooms msg.RoomCode = some room)
    (hword : msg.Message = room.WordToDraw) :
    ∃ cl, findRoom (handleGuess w o g msg).1.rooms msg.RoomCode
      = some { room with Clients := cl, CurrentDrawer := some g,
                         WordToDraw := pickWord o.wordRand } := by
  obtain ⟨cl1, h1⟩ := findRoom_broadcastMessage_same w (o.order 0) (o.fails 0)
    (guessCorrectMsg (getClient room.Clients g)) msg.RoomCode room hr
  obtain ⟨cl2, h2⟩ := findRoom_broadcastMessage_same _ (o.order 1) (o.fails 2)
    clearCanvasMsg msg.RoomCode _ h1
  refine ⟨cl2, ?_⟩
  simp only [handleGuess, hr, hword, if_true, h2, startNewRound_given_drawer,
    findRoom_putRoom_same]

/-- C3: a room whose participants are exactly the two connections `a` and `b`,
without drawer.  Whatever the oracle, `startNewRound(room, nil)` makes `a` or `b`
the drawer; and when the participant `g` of the two who is not the drawer then
sends the word, `handleGuess` leaves `g` as `CurrentDrawer`, whatever the random
values, the enumeration orders and the outcome of the sends: the drawer changes,
from `a` to `b` or from `b` to `a`. -/
theorem two_player_start_and_swap (closed : List Conn) (o o2 : Oracle) (room : Room)
    (a b g : Conn) (w : World) (msg : Message)
    (hk : (clientKeys room.Clients).Perm [a, b]) (hd : room.CurrentDrawer = none)
    (hw : findRoom w.rooms msg.RoomCode = some (startNewRound closed o room none).1)
    (hword : msg.Message = (startNewRound closed o room none).1.WordToDraw)
    (hg : g = a ∨ g = b) (hother : (startNewRound closed o room none).1.CurrentDrawer ≠ some g) :
    ((startNewRound closed o room none).1.CurrentDrawer = some a ∨
        (startNewRound closed o room none).1.CurrentDrawer = some b) ∧
      ∃ r2, findRoom (handleGuess w o2 g msg).1.rooms msg.RoomCode = some r2 ∧
        r2.CurrentDrawer = some g ∧
        r2.CurrentDrawer ≠ (startNewRound closed o room none).1.CurrentDrawer ∧
        ((startNewRound closed o room none).1.CurrentDrawer = some a →
          r2.CurrentDrawer = some b) ∧
        ((startNewRound closed o room none).1.CurrentDrawer = some b →
          r2.CurrentDrawer = some a) := by
  constructor
  · have hp : (rangeKeys (o.order 2) room.Clients).Perm [a, b] :=
      (rangeKeys_perm _ _).trans hk
    have hne : rangeKeys (o.order 2) room.Clients ≠ [] := by
      intro h
      rw [h] at hp
      simpa using hp.length_eq
    obtain ⟨c, hc, hmem⟩ := getRandomPlayer_some _ o.playerRand hne
    have hc2 : c ∈ [a, b] := hp.mem_iff.mp hmem
    have hdr : (startNewRound closed o room none).1.CurrentDrawer = some c := by
      simp [startNewRound, nextDrawerOf, hd, hc]
    rw [hdr]
    simpa using hc2
  · obtain ⟨cl, h⟩ := handleGuess_correct_drawer w o2 g msg _ hw hword
    refine ⟨_, h, rfl, fun he => hother he.symm, ?_, ?_⟩
    · intro ha
      rcases hg with rfl | rfl
      · exact absurd ha hother
      · rfl
    · intro hb
      rcases hg with rfl | rfl
      · rfl
      · exact absurd hb hother

/-- C3, at a concrete room: connections 1 and 2, the round makes 1 the drawer,
and 2 guesses the word. -/
theorem two_player_start_and_swap_witness :
    (clientKeys twoPlayerRoom.Clients).Perm [1, 2] ∧
      findRoom twoPlayerWorld.rooms maisonGuess.RoomCode
        = some (startNewRound [] Oracle.calm twoPlayerRoom none).1 ∧
      (startNewRound [] Oracle.calm twoPlayerRoom none).1.CurrentDrawer ≠ some 2 ∧
      (((startNewRound [] Oracle.calm twoPlayerRoom none).1.CurrentDrawer = some 1 ∨
          (startNewRound [] Oracle.calm twoPlayerRoom none).1.CurrentDrawer = some 2) ∧
        ∃ r2, findRoom (handleGuess twoPlayerWorld Oracle.calm 2 maisonGuess).1.rooms
            maisonGuess.RoomCode = some r2 ∧ r2.CurrentDrawer = some 2 ∧
          r2.CurrentDrawer ≠ (startNewRound [] Oracle.calm twoPlayerRoom none).1.CurrentDrawer ∧
          ((startNewRound [] Oracle.calm twoPlayerRoom none).1.CurrentDrawer = some 1 →
            r2.CurrentDrawer = some 2) ∧
          ((startNewRound [] Oracle.calm twoPlayerRoom none).1.CurrentDrawer = some 2 →
            r2.CurrentDrawer = some 1)) :=
  ⟨by decide, by decide, by decide,
    two_player_start_and_swap [] Oracle.calm Oracle.calm twoPlayerRoom 1 2 2 twoPlayerWorld
      maisonGuess (by decide) (by decide) (by decide) (by decide) (by decide) (by decide)⟩

/-! ## The drawer is a participant -/

theorem mem_clientKeys_setClient (m : ClientMap) (c : Conn) (name : String) (d : Conn) :
    d ∈ clientKeys (setClient m c name) ↔ d = c ∨ d ∈ clientKeys m := by
  induction m with
  | nil => simp [setClient, clientKeys]
  | cons p rest ih =>
    obtain ⟨k, v⟩ := p
    by_cases hk : k = c
    · simp [setClient, hk, clientKeys]
    · have ih2 : d ∈ List.map Prod.fst (setClient rest c name) ↔
          d = c ∨ d ∈ List.map Prod.fst rest := ih
      simp only [setClient, hk, if_false, clientKeys, List.map_cons, List.mem_cons, ih2]
      tauto

theorem mem_clientKeys_deleteClient (m : ClientMap) (c d : Conn) :
    d ∈ clientKeys (deleteClient m c) ↔ d ≠ c ∧ d ∈ clientKeys m := by
  simp only [clientKeys, deleteClient, List.mem_map, List.mem_filter]
  constructor
  · rintro ⟨p, ⟨hp, hne⟩, rfl⟩
    exact ⟨by simpa using hne, p, hp, rfl⟩
  · rintro ⟨hne, p, hp, rfl⟩
    exact ⟨p, ⟨hp, by simpa using hne⟩, rfl⟩

theorem not_mem_closeConn (closed : List Conn) (c d : Conn) (hne : d ≠ c) (h : d ∉ closed) :
    d ∉ closeConn closed c := by
  unfold closeConn
  split
  · exact h
  · simp [hne, h]

theorem not_mem_closed_of_sendErr (closed : List Conn) (fails : Conn → Bool) (c : Conn)
    (h : sendErr closed fails c = false) : c ∉ closed := by
  intro hc
  simp [sendErr, hc] at h

theorem broadcastMessageLoop_keeps (fails : Conn → Bool) (msg : Message) (d : Conn)
    (keys : List Conn) :
    ∀ (clients : ClientMap) (closed : List Conn),
      d ∈ clientKeys clients → sendErr closed fails d = false →
      d ∈ clientKeys (broadcastMessageLoop fails msg keys clients closed).1.1 ∧
        d ∉ (broadcastMessageLoop fails msg keys clients closed).1.2 := by
  induction keys with
  | nil =>
    intro clients closed hd herr
    exact ⟨hd, not_mem_closed_of_sendErr closed fails d herr⟩
  | cons c rest ih =>
    intro clients closed hd herr
    unfold broadcastMessageLoop
    split
    · rename_i hc
      have hne : d ≠ c := by
        intro he
        rw [he, hc] at herr
        exact Bool.noConfusion herr
      have h1 : d ∈ clientKeys (deleteClient clients c) :=
        (mem_clientKeys_deleteClient clients c d).mpr ⟨hne, hd⟩
      have h2 : sendErr (closeConn closed c) fails d = false := by
        rw [sendErr_closeConn_of_ne closed fails c d hne]
        exact herr
      exact ih _ _ h1 h2
    · exact ih _ _ hd herr

theorem broadcastDrawLoop_keeps_sender (fails : Conn → Bool) (msg : Message) (sender : Conn)
    (keys : List Conn) :
    ∀ (clients : ClientMap) (closed : List Conn), sender ∈ clientKeys clients →
      sender ∈ clientKeys (broadcastDrawLoop fails msg sender keys clients closed).1.1 := by
  induction keys with
  | nil => intro clients closed hd; exact hd
  | cons c rest ih =>
    intro clients closed hd
    unfold broadcastDrawLoop
    by_cases hc : c = sender
    · simp only [hc, ne_eq, not_true_eq_false, if_false]
      exact ih _ _ hd
    · simp only [ne_eq, hc, not_false_eq_true, if_true]
      split
      · have h1 : sender ∈ clientKeys (deleteClient clients c) :=
          (mem_clientKeys_deleteClient clients c sender).mpr ⟨fun h => hc h.symm, hd⟩
        exact ih _ _ h1
      · exact ih _ _ hd

theorem getRandomPlayer_mem (keys : List Conn) (r : Nat) (c : Conn)
    (h : getRandomPlayer keys r = some c) : c ∈ keys := by
  unfold getRandomPlayer at h
  split at h
  · exact Option.noConfusion h
  · exact List.getElem?_mem h

theorem getNextPlayer_mem (keys : List Conn) (current : Option Conn) (c : Conn)
    (h : getNextPlayer keys current = some c) : c ∈ keys := by
  unfold getNextPlayer at h
  split at h
  · exact Option.noConfusion h
  · simp only at h
    split at h
    · exact List.getElem?_mem h
    · rename_i n hn
      cases h
      split at hn
      · exact List.getElem?_mem hn
      · exact Option.noConfusion hn

theorem nextDrawerOf_none_mem (o : Oracle) (room : Room) (c : Conn)
    (h : nextDrawerOf o room none = some c) : c ∈ clientKeys room.Clients := by
  unfold nextDrawerOf at h
  simp only at h
  split at h
  · exact (mem_rangeKeys _ _ c).mp (getRandomPlayer_mem _ _ c h)
  · exact (mem_rangeKeys _ _ c).mp (getNextPlayer_mem _ _ c h)

theorem drawerInvariant_frame (w w1 : World) (code : String) (hinv : drawerInvariant w)
    (hother : ∀ other, other ≠ code → findRoom w1.rooms other = findRoom w.rooms other)
    (hsame : ∀ r, findRoom w1.rooms code = some r → drawerIsMember r) : drawerInvariant w1 := by
  intro c r hr
  by_cases hc : c = code
  · subst hc
    exact hsame r hr
  · rw [hother c hc] at hr
    exact hinv c r hr

theorem broadcastMessage_other (w : World) (ord : List Conn) (fails : Conn → Bool)
    (msg : Message) (code other : String) (h : other ≠ code) :
    findRoom (broadcastMessage w ord fails msg code).1.rooms other = findRoom w.rooms other := by
  unfold broadcastMessage
  cases hr : findRoom w.rooms code with
  | none => rfl
  | some room => exact findRoom_putRoom_other _ _ _ _ h

theorem broadcastDraw_other (w : World) (ord : List Conn) (fails : Conn → Bool)
    (msg : Message) (code other : String) (sender : Conn) (h : other ≠ code) :
    findRoom (broadcastDraw w ord fails msg code sender).1.rooms other
      = findRoom w.rooms other := by
  unfold broadcastDraw
  cases hr : findRoom w.rooms code with
  | none => rfl
  | some room => exact findRoom_putRoom_other _ _ _ _ h

theorem broadcastMessage_survivor (w : World) (ord : List Conn) (fails : Conn → Bool)
    (msg : Message) (code : String) (room : Room) (hr : findRoom w.rooms code = some room) :
    ∃ cl, findRoom (broadcastMessage w ord fails msg code).1.rooms code
        = some { room with Clients := cl } ∧
      ∀ d, d ∈ clientKeys room.Clients → sendErr w.closed fails d = false →
        d ∈ clientKeys cl ∧ d ∉ (broadcastMessage w ord fails msg code).1.closed := by
  simp only [broadcastMessage, hr, findRoom_putRoom_same]
  exact ⟨_, rfl, fun d hd herr => broadcastMessageLoop_keeps fails msg d _ _ _ hd herr⟩

theorem broadcastMessage_drawerInvariant (w : World) (ord : List Conn) (fails : Conn → Bool)
    (msg : Message) (code : String) (hinv : drawerInvariant w)
    (hsafe : ∀ room d, findRoom w.rooms code = some room → room.CurrentDrawer = some d →
      sendErr w.closed fails d = false) :
    drawerInvariant (broadcastMessage w ord fails msg code).1 := by
  apply drawerInvariant_frame w _ code hinv (fun other h => broadcastMessage_other _ _ _ _ _ _ h)
  intro r hr1
  cases hr : findRoom w.rooms code with
  | none =>
    simp only [broadcastMessage, hr] at hr1
    exact Option.noConfusion hr1
  | some room =>
    obtain ⟨cl, hcl, hkeep⟩ := broadcastMessage_survivor w ord fails msg code room hr
    rw [hcl] at hr1
    cases hr1
    have hm := hinv code room hr
    unfold drawerIsMember at hm ⊢
    cases hd : room.CurrentDrawer with
    | none => simp [hd]
    | some d =>
      rw [hd] at hm
      simp only [hd]
      exact (hkeep d hm (hsafe room d hr hd)).1

theorem handleGuess_other (w : World) (o : Oracle) (g : Conn) (msg : Message) (other : String)
    (h : other ≠ msg.RoomCode) :
    findRoom (handleGuess w o g msg).1.rooms other = findRoom w.rooms other := by
  unfold handleGuess
  cases hr : findRoom w.rooms msg.RoomCode with
  | none => rfl
  | some room =>
    simp only
    split
    · split
      · simp only [broadcastMessage_other _ _ _ _ _ _ h]
      · simp only [findRoom_putRoom_other _ _ _ _ h, broadcastMessage_other _ _ _ _ _ _ h]
    · exact broadcastMessage_other _ _ _ _ _ _ h

theorem drawerIsMember_setClient (room : Room) (c : Conn) (name : String)
    (h : drawerIsMember room) :
    drawerIsMember { room with Clients := setClient room.Clients c name } := by
  unfold drawerIsMember at h ⊢
  cases hd : room.CurrentDrawer with
  | none => simp [hd]
  | some d =>
    rw [hd] at h
    simp only [hd]
    exact (mem_clientKeys_setClient _ _ _ _).mpr (Or.inr h)

theorem reachable_of_runVia (ok : World → Event → Bool) (es : List Event) :
    ∀ (w w1 : World), ReachableVia ok w → runVia ok w es = some w1 → ReachableVia ok w1 := by
  induction es with
  | nil =>
    intro w w1 hw h
    simp only [runVia, Option.some.injEq] at h
    exact h ▸ hw
  | cons e rest ih =>
    intro w w1 hw h
    unfold runVia at h
    split at h
    · rename_i hoke
      cases hs : step w e with
      | none =>
        rw [hs] at h
        exact Option.noConfusion h
      | some p =>
        obtain ⟨w2, tr⟩ := p
        rw [hs] at h
        exact ih w2 w1 (ReachableVia.next w e w2 tr hw hoke hs) h
    · exact Option.noConfusion h

theorem runVia_true_of_run (es : List Event) :
    ∀ (w w1 : World) (tr : List Send), run w es = some (w1, tr) →
      runVia (fun _ _ => true) w es = some w1 := by
  induction es with
  | nil =>
    intro w w1 tr h
    simp only [run, Option.some.injEq, Prod.mk.injEq] at h
    simp [runVia, h.1]
  | cons e rest ih =>
    intro w w1 tr h
    unfold run at h
    cases hs : step w e with
    | none =>
      rw [hs] at h
      exact Option.noConfusion h
    | some p =>
      obtain ⟨w2, t2⟩ := p
      rw [hs] at h
      simp only at h
      cases hrest : run w2 rest with
      | none =>
        rw [hrest] at h
        exact Option.noConfusion h
      | some q =>
        obtain ⟨w3, t3⟩ := q
        rw [hrest] at h
        simp only [Option.some.injEq, Prod.mk.injEq] at h
        obtain ⟨hw, _⟩ := h
        subst hw
        simp only [runVia, if_true, hs]
        exact ih w2 w3 t3 hrest

theorem reachable_of_run (es : List Event) (w1 : World)
    (h : (run World.empty es).map Prod.fst = some w1) : Reachable w1 := by
  cases hr : run World.empty es with
  | none =>
    rw [hr] at h
    exact Option.noConfusion h
  | some p =>
    obtain ⟨w2, tr⟩ := p
    rw [hr] at h
    simp only [Option.map_some', Option.some.injEq] at h
    subst h
    exact reachable_of_runVia _ es World.empty w2 ReachableVia.init
      (runVia_true_of_run es World.empty w2 tr hr)

/-- C1, as stated, fails: after `drawerLostSession`, a sequence of three session
events from the empty registry in which one send of a broadcast fails, connection
1 is the `CurrentDrawer` of room `"0"` and is not a key of its `Clients`. -/
theorem drawer_left_dangling :
    (run World.empty drawerLostSession).map Prod.fst = some drawerLostWorld ∧
      Reachable drawerLostWorld ∧ ¬ drawerInvariant drawerLostWorld := by
  refine ⟨by decide, reachable_of_run drawerLostSession drawerLostWorld (by decide), ?_⟩
  · intro h
    have hm := h "0" ⟨"0", [(2, "Anonyme")], some 1, "maison"⟩ (by decide)
    revert hm
    simp [drawerIsMember, clientKeys]

theorem stranger_guess_becomes_drawer :
    (run World.empty strangerGuessSession).map (fun p => p.1.rooms)
      = some [("0", ⟨"0", [(1, "Anonyme")], some 2, "maison"⟩)] := by
  decide

/-! ## Traces of one send per participant -/

theorem filter_dest_map (l : List Conn) (f : Conn → Send) (hf : ∀ d, (f d).dest = d)
    (hnd : l.Nodup) (c : Conn) (hc : c ∈ l) :
    (l.map f).filter (fun s => decide (s.dest = c)) = [f c] := by
  rw [List.filter_map]
  have h1 : l.filter (fun d => decide (d = c)) = [c] := by
    rw [List.filter_eq, List.count_eq_one_of_mem hnd hc]
    rfl
  have h2 : l.filter ((fun s : Send => decide (s.dest = c)) ∘ f) = [c] := by
    rw [← h1]
    apply List.filter_congr
    intro d _
    simp [hf d]
  rw [h2]
  rfl

theorem broadcastDrawLoop_noFail (fails : Conn → Bool) (msg : Message) (sender : Conn)
    (keys : List Conn) (clients : ClientMap) (closed : List Conn)
    (h : ∀ c ∈ keys, c ≠ sender → sendErr closed fails c = false) :
    broadcastDrawLoop fails msg sender keys clients closed
      = ((clients, closed),
          (keys.filter (fun c => decide (c ≠ sender))).map (fun c => ⟨c, msg, true⟩)) := by
  induction keys with
  | nil => rfl
  | cons c rest ih =>
    have h2 := ih (fun d hd => h d (List.mem_cons_of_mem _ hd))
    by_cases hc : c = sender
    · simp [broadcastDrawLoop, hc, h2]
    · have h1 : sendErr closed fails c = false := h c (List.mem_cons_self _ _) hc
      simp [broadcastDrawLoop, hc, h1, h2, writeJSON]

theorem broadcastDraw_noFail (w : World) (ord : List Conn) (fails : Conn → Bool)
    (msg : Message) (code : String) (sender : Conn) (room : Room)
    (hr : findRoom w.rooms code = some room)
    (hok : ∀ c ∈ clientKeys room.Clients, c ≠ sender → sendErr w.closed fails c = false) :
    broadcastDraw w ord fails msg code sender
      = (w, ((rangeKeys ord room.Clients).filter (fun c => decide (c ≠ sender))).map
          (fun c => ⟨c, msg, true⟩)) := by
  have h1 : ∀ c ∈ rangeKeys ord room.Clients, c ≠ sender → sendErr w.closed fails c = false :=
    fun c hc => hok c ((mem_rangeKeys ord room.Clients c).mp hc)
  simp only [broadcastDraw, hr, broadcastDrawLoop_noFail fails msg sender _ _ _ h1]
  have h2 : putRoom w.rooms code { room with Clients := room.Clients } = w.rooms :=
    putRoom_self w.rooms code room hr
  rw [h2]

/-! ## A guess that does not match -/

/-- C11: in an existing room with distinct keys, a guess by participant `g`, whose
entry in `Clients` is the name `n`, with a text different from `WordToDraw`, when
no send to a participant fails.  The sends of `handleGuess` are one message per
participant, to an enumeration of the keys, each of type `message` with
`Nickname` `n` and `Message` the guess text, each delivered; nobody else is sent
anything, and the state, `CurrentDrawer` and `WordToDraw` included, is the one
`handleGuess` was given. -/
theorem handleGuess_wrong_relayed (w : World) (o : Oracle) (g : Conn) (msg : Message)
    (room : Room) (n : String) (hr : findRoom w.rooms msg.RoomCode = some room)
    (hnd : (clientKeys room.Clients).Nodup) (hn : room.Clients.lookup g = some n)
    (hword : msg.Message ≠ room.WordToDraw)
    (hok : ∀ c ∈ clientKeys room.Clients, sendErr w.closed (o.fails 0) c = false) :
    (handleGuess w o g msg).1 = w ∧
      (∃ e : List Conn, e.Perm (clientKeys room.Clients) ∧
        (handleGuess w o g msg).2
          = e.map (fun c =>
              ⟨c, { Typ := "message", Nickname := n, Message := msg.Message }, true⟩)) ∧
      (∀ c ∈ clientKeys room.Clients,
        (handleGuess w o g msg).2.filter (fun s => decide (s.dest = c))
          = [⟨c, { Typ := "message", Nickname := n, Message := msg.Message }, true⟩]) ∧
      (∀ s ∈ (handleGuess w o g msg).2, s.dest ∈ clientKeys room.Clients) := by
  have hname : getClient room.Clients g = n := by simp [getClient, hn]
  have hb := broadcastMessage_noFail w (o.order 0) (o.fails 0)
    (chatMsg (getClient room.Clients g) msg.Message) msg.RoomCode room hr hok
  have heq : handleGuess w o g msg
      = (w, (rangeKeys (o.order 0) room.Clients).map
          (fun c => ⟨c, { Typ := "message", Nickname := n, Message := msg.Message }, true⟩)) := by
    rw [hname] at hb
    simp only [chatMsg] at hb
    simp only [handleGuess, hr, hword, if_false, hname, chatMsg, hb]
  have hp := rangeKeys_perm (o.order 0) room.Clients
  rw [heq]
  refine ⟨rfl, ⟨_, hp, rfl⟩, ?_, ?_⟩
  · intro c hc
    exact filter_dest_map _ _ (fun _ => rfl) (hp.nodup_iff.mpr hnd) c (hp.mem_iff.mpr hc)
  · intro s hs
    obtain ⟨c, hc, rfl⟩ := List.mem_map.mp hs
    exact hp.mem_iff.mp hc

/-! ## Strokes of the drawer -/

/-- C17: in an existing room with distinct keys whose `CurrentDrawer` is `ws`, a
draw message from `ws`, when no send to another participant fails.  The sends of
`handleDraw` are one per participant other than `ws`, each carrying the inbound
message as it came and each delivered; `ws` and connections outside the room are
sent nothing, and the state is the one `handleDraw` was given. -/
theorem handleDraw_drawer_relayed (w : World) (o : Oracle) (ws : Conn) (msg : Message)
    (room : Room) (hr : findRoom w.rooms msg.RoomCode = some room)
    (hnd : (clientKeys room.Clients).Nodup) (hd : room.CurrentDrawer = some ws)
    (hok : ∀ c ∈ clientKeys room.Clients, c ≠ ws → sendErr w.closed (o.fails 0) c = false) :
    (handleDraw w o ws msg).1 = w ∧
      (∀ c ∈ clientKeys room.Clients, c ≠ ws →
        (handleDraw w o ws msg).2.filter (fun s => decide (s.dest = c)) = [⟨c, msg, true⟩]) ∧
      (∀ s ∈ (handleDraw w o ws msg).2, s.dest ∈ clientKeys room.Clients ∧ s.dest ≠ ws) := by
  have hb := broadcastDraw_noFail w (o.order 0) (o.fails 0) msg msg.RoomCode ws room hr hok
  have heq : handleDraw w o ws msg
      = (w, ((rangeKeys (o.order 0) room.Clients).filter (fun c => decide (c ≠ ws))).map
          (fun c => ⟨c, msg, true⟩)) := by
    simp only [handleDraw, hr, hd, ne_eq, not_true_eq_false, if_false, hb]
  have hp := rangeKeys_perm (o.order 0) room.Clients
  have hnd2 : ((rangeKeys (o.order 0) room.Clients).filter (fun c => decide (c ≠ ws))).Nodup :=
    (hp.nodup_iff.mpr hnd).filter _
  rw [heq]
  refine ⟨rfl, ?_, ?_⟩
  · intro c hc hne
    apply filter_dest_map _ _ (fun _ => rfl) hnd2 c
    exact List.mem_filter.mpr ⟨hp.mem_iff.mpr hc, by simpa using hne⟩
  · intro s hs
    obtain ⟨c, hc, rfl⟩ := List.mem_map.mp hs
    obtain ⟨hc1, hc2⟩ := List.mem_filter.mp hc
    exact ⟨hp.mem_iff.mp hc1, by simpa using hc2⟩

/-! ## Joining a room whose round is going on -/

theorem lookup_setClient_same (m : ClientMap) (c : Conn) (name : String) :
    (setClient m c name).lookup c = some name := by
  induction m with
  | nil => simp [setClient, List.lookup]
  | cons p rest ih =>
    obtain ⟨k, v⟩ := p
    by_cases hk : k = c
    · simp [setClient, hk, List.lookup]
    · have hne : (c == k) = false := by simpa using fun h => hk h.symm
      simpa [setClient, hk, List.lookup, hne] using ih

theorem lookup_setClient_other (m : ClientMap) (c d : Conn) (name : String) (h : d ≠ c) :
    (setClient m c name).lookup d = m.lookup d := by
  induction m with
  | nil =>
    have hne : (d == c) = false := by simpa using h
    simp [setClient, List.lookup, hne]
  | cons p rest ih =>
    obtain ⟨k, v⟩ := p
    by_cases hk : k = c
    · have hne : (d == c) = false := by simpa using h
      simp [setClient, hk, List.lookup, hne]
    · by_cases hd : d = k
      · have he : (d == k) = true := by simpa using hd
        simp [setClient, hk, List.lookup, he]
      · have hne : (d == k) = false := by simpa using hd
        simpa [setClient, hk, List.lookup, hne] using ih

/-- C18: a `joinRoom` message for an existing room whose `CurrentDrawer` is set.
The handler attempts one send, `roomJoined` to the joiner, and starts no round.
In the room afterwards the joiner's entry is the name held by its handler, every
other connection has the entry, or the absence of entry, it had before, and
`CurrentDrawer`, `WordToDraw` and `Code` are unchanged; the rooms stored under
other codes are unchanged. -/
theorem joinRoom_active_round_kept (w : World) (o : Oracle) (ws : Conn) (msg : Message)
    (room : Room) (hT : msg.Typ = "joinRoom")
    (hr : findRoom w.rooms msg.RoomCode = some room) (hd : room.CurrentDrawer ≠ none) :
    ∃ p, handleMessage w o ws msg = some p ∧
      p.2 = [writeJSON w.closed (o.fails 0) ws { Typ := "roomJoined", RoomCode := msg.RoomCode }] ∧
      (∃ room1, findRoom p.1.rooms msg.RoomCode = some room1 ∧
        room1.CurrentDrawer = room.CurrentDrawer ∧ room1.WordToDraw = room.WordToDraw ∧
        room1.Code = room.Code ∧
        room1.Clients.lookup ws = some (localOf w ws).nickname ∧
        ∀ d, d ≠ ws → room1.Clients.lookup d = room.Clients.lookup d) ∧
      ∀ other, other ≠ msg.RoomCode → findRoom p.1.rooms other = findRoom w.rooms other := by
  refine ⟨handleJoinRoom w o ws msg, handleMessage_joinRoom w o ws msg hT, ?_⟩
  have heq : handleJoinRoom w o ws msg
      = ({ w with
            locals := setLocal w.locals ws { localOf w ws with roomCode := msg.RoomCode },
            rooms := putRoom w.rooms msg.RoomCode
              { room with Clients := setClient room.Clients ws (localOf w ws).nickname } },
          [writeJSON w.closed (o.fails 0) ws { Typ := "roomJoined", RoomCode := msg.RoomCode }]) := by
    simp only [handleJoinRoom, hr, hd, and_false, if_false]
  rw [heq]
  refine ⟨rfl, ⟨_, findRoom_putRoom_same _ _ _, rfl, rfl, rfl,
    lookup_setClient_same _ _ _, fun d hne => lookup_setClient_other _ _ _ _ hne⟩, ?_⟩
  intro other hne
  exact findRoom_putRoom_other _ _ _ _ hne

/-- C18, at a concrete state: connection 3, named `"Cyd"`, joins room `"0"` while
connection 1 is drawing. -/
theorem joinRoom_active_round_kept_witness :
    findRoom activeRoundWorld.rooms (mkMsg "joinRoom" "0").RoomCode
        = some ⟨"0", [(1, "Anonyme"), (2, "Anonyme")], some 1, "maison"⟩ ∧
      ∃ p, handleMessage activeRoundWorld Oracle.calm 3 (mkMsg "joinRoom" "0") = some p ∧
        p.2 = [writeJSON activeRoundWorld.closed (Oracle.calm.fails 0) 3
          { Typ := "roomJoined", RoomCode := "0" }] ∧
        (∃ room1, findRoom p.1.rooms "0" = some room1 ∧
          room1.CurrentDrawer = some 1 ∧ room1.WordToDraw = "maison" ∧
          room1.Code = "0" ∧
          room1.Clients.lookup 3 = some "Cyd" ∧
          ∀ d, d ≠ 3 → room1.Clients.lookup d
            = (⟨"0", [(1, "Anonyme"), (2, "Anonyme")], some 1, "maison"⟩ : Room).Clients.lookup d) ∧
        ∀ other, other ≠ "0" → findRoom p.1.rooms other = findRoom activeRoundWorld.rooms other :=
  ⟨by decide,
    joinRoom_active_round_kept activeRoundWorld Oracle.calm 3 (mkMsg "joinRoom" "0")
      ⟨"0", [(1, "Anonyme"), (2, "Anonyme")], some 1, "maison"⟩ (by decide) (by decide)
      (by decide)⟩

/-! ## The rotation of `getNextPlayer` -/

theorem getNextPlayer_of_index (keys : List Conn) (current : Option Conn) (i : Nat)
    (h : keys.findIdx? (fun c => decide (some c = current)) = some i) :
    getNextPlayer keys current = keys[(i + 1) % keys.length]? := by
  have hlt : i < keys.length := by
    obtain ⟨hi, _⟩ := List.findIdx?_eq_some_iff_getElem.mp h
    exact hi
  have hne : keys.length ≠ 0 := by omega
  have hlt2 : (i + 1) % keys.length < keys.length := Nat.mod_lt _ (by omega)
  simp [getNextPlayer, hne, h, List.getElem?_eq_getElem hlt2]

theorem getNextPlayer_of_absent (keys : List Conn) (current : Option Conn)
    (h : keys.findIdx? (fun c => decide (some c = current)) = none) :
    getNextPlayer keys current = keys[0]? := by
  by_cases hk : keys.length = 0
  · have : keys = [] := List.length_eq_zero.mp hk
    subst this
    rfl
  · simp [getNextPlayer, hk, h]

theorem getNextPlayer_some (keys : List Conn) (current : Option Conn) (h : keys ≠ []) :
    ∃ c, c ∈ keys ∧ getNextPlayer keys current = some c := by
  have hpos : 0 < keys.length := List.length_pos.mpr h
  cases hf : keys.findIdx? (fun c => decide (some c = current)) with
  | none =>
    rw [getNextPlayer_of_absent keys current hf]
    exact ⟨keys[0], List.getElem_mem _, List.getElem?_eq_getElem hpos⟩
  | some i =>
    rw [getNextPlayer_of_index keys current i hf]
    have hlt2 : (i + 1) % keys.length < keys.length := Nat.mod_lt _ hpos
    exact ⟨keys[(i + 1) % keys.length], List.getElem_mem _, List.getElem?_eq_getElem hlt2⟩

theorem findIdx_of_nodup (keys : List Conn) (cur : Conn) (i : Nat) (hnd : keys.Nodup)
    (h : keys[i]? = some cur) :
    keys.findIdx? (fun c => decide (some c = some cur)) = some i := by
  obtain ⟨hi, hget⟩ := List.getElem?_eq_some.mp h
  apply List.findIdx?_eq_some_iff_getElem.mpr
  refine ⟨hi, by simp [hget], ?_⟩
  intro j hji hp
  have hj : j < keys.length := Nat.lt_trans hji hi
  have hjc : keys[j] = cur := by simpa using hp
  have : keys[j] = keys[i] := by rw [hjc, hget]
  have hij : j = i := (hnd.getElem_inj_iff).mp this
  omega

/-- C15: for an enumeration `keys` of distinct connections and a connection `cur`,
`getNextPlayer` returns nil when `keys` is empty, the element at index
`(i + 1) mod len(keys)` when `cur` is at index `i`, and the element at index 0
when `keys` is not empty and `cur` does not occur in it.  When `keys` is not
empty the result is one of the keys, and with a single key it is that key. -/
theorem getNextPlayer_rotation (keys : List Conn) (cur : Conn) (hnd : keys.Nodup) :
    (keys = [] → getNextPlayer keys (some cur) = none) ∧
      (∀ i, keys[i]? = some cur →
        getNextPlayer keys (some cur) = keys[(i + 1) % keys.length]? ∧
          (getNextPlayer keys (some cur)).isSome = true) ∧
      (keys ≠ [] → cur ∉ keys → getNextPlayer keys (some cur) = keys[0]?) ∧
      (keys ≠ [] → ∃ c, c ∈ keys ∧ getNextPlayer keys (some cur) = some c) ∧
      (∀ a, keys = [a] → getNextPlayer keys (some cur) = some a) := by
  refine ⟨?_, ?_, ?_, ?_, ?_⟩
  · intro h
    subst h
    rfl
  · intro i hi
    have hne : keys ≠ [] := by
      intro h
      subst h
      simp at hi
    obtain ⟨c, _, hc⟩ := getNextPlayer_some keys (some cur) hne
    refine ⟨getNextPlayer_of_index keys (some cur) i (findIdx_of_nodup keys cur i hnd hi), ?_⟩
    rw [hc]
    rfl
  · intro _ habs
    apply getNextPlayer_of_absent
    apply List.findIdx?_eq_none_iff.mpr
    intro x hx
    have : x ≠ cur := fun h => habs (h ▸ hx)
    simpa using this
  · intro hne
    exact getNextPlayer_some keys (some cur) hne
  · intro a ha
    obtain ⟨c, hc, hres⟩ := getNextPlayer_some keys (some cur) (by rw [ha]; simp)
    rw [ha] at hc
    have : c = a := by simpa using hc
    rw [hres, this]

/-- C15, on the keys 4, 7, 9: after 7 comes 9, after 9 comes 4, and after a
connection that is not a key comes 4. -/
theorem getNextPlayer_rotation_witness :
    ([4, 7, 9] : List Conn).Nodup ∧
      getNextPlayer [4, 7, 9] (some 7) = some 9 ∧
      getNextPlayer [4, 7, 9] (some 9) = some 4 ∧
      getNextPlayer [4, 7, 9] (some 5) = some 4 :=
  ⟨by decide,
    ((getNextPlayer_rotation [4, 7, 9] 7 (by decide)).2.1 1 rfl).1,
    ((getNextPlayer_rotation [4, 7, 9] 9 (by decide)).2.1 2 rfl).1,
    (getNextPlayer_rotation [4, 7, 9] 5 (by decide)).2.2.1 (by decide) (by decide)⟩

/-! ## Who is told the word -/

theorem nextDrawerOf_some (o : Oracle) (room : Room) (nextDrawer : Option Conn)
    (hne : room.Clients ≠ []) : ∃ d, nextDrawerOf o room nextDrawer = some d := by
  have hk : rangeKeys (o.order 2) room.Clients ≠ [] := by
    intro h
    have hp := rangeKeys_perm (o.order 2) room.Clients
    rw [h] at hp
    have hl := hp.length_eq
    simp only [List.length_nil, clientKeys, List.length_map] at hl
    exact hne (List.length_eq_zero.mp hl.symm)
  unfold nextDrawerOf
  cases nextDrawer with
  | some d => exact ⟨d, rfl⟩
  | none =>
    cases hcur : room.CurrentDrawer with
    | none =>
      obtain ⟨c, hc, _⟩ := getRandomPlayer_some _ o.playerRand hk
      exact ⟨c, hc⟩
    | some cur =>
      obtain ⟨c, _, hc⟩ := getNextPlayer_some _ (some cur) hk
      exact ⟨c, hc⟩

theorem startGuessing_has_no_word :
    ∀ word ∈ wordList,
      ¬ word.data <:+: "startGuessing".data ∧
        ¬ word.data <:+: "Un joueur dessine, essayez de deviner le mot !".data := by
  decide

/-- C14: `startNewRound` on a room with distinct keys and at least one
participant, for any `nextDrawer`.  The room gets a drawer `d` and a word, which
is `wordList[r % len(wordList)]` for the random value `r`.  The sends are: first
one message of type `yourWord` whose text is that word, to `d`; then, for an
enumeration of the keys, one message of type `startGuessing` with a fixed text to
each participant other than `d`.  Every message sent to a connection other than
`d` is that fixed message, and no word of `wordList` occurs in its type or in its
text; its other text fields are empty. -/
theorem startNewRound_word_private (closed : List Conn) (o : Oracle) (room : Room)
    (nextDrawer : Option Conn) (hne : room.Clients ≠ [])
    (hnd : (clientKeys room.Clients).Nodup) :
    ∃ (d : Conn) (word : String),
      (startNewRound closed o room nextDrawer).1.CurrentDrawer = some d ∧
      (startNewRound closed o room nextDrawer).1.WordToDraw = word ∧
      wordList[o.wordRand % wordList.length]? = some word ∧ word ∈ wordList ∧
      (∃ e : List Conn, e.Perm (clientKeys room.Clients) ∧
        (startNewRound closed o room nextDrawer).2
          = ⟨d, { Typ := "yourWord", Message := word }, !sendErr closed (o.fails 3) d⟩ ::
            (e.filter (fun c => decide (c ≠ d))).map
              (fun c =>
                ⟨c, { Typ := "startGuessing",
                      Message := "Un joueur dessine, essayez de deviner le mot !" },
                  !sendErr closed (o.fails 4) c⟩)) ∧
      (∀ c ∈ clientKeys room.Clients, c ≠ d →
        (startNewRound closed o room nextDrawer).2.filter (fun s => decide (s.dest = c))
          = [⟨c, { Typ := "startGuessing",
                   Message := "Un joueur dessine, essayez de deviner le mot !" },
               !sendErr closed (o.fails 4) c⟩]) ∧
      (∀ s ∈ (startNewRound closed o room nextDrawer).2, s.dest ≠ d →
        s.msg = { Typ := "startGuessing",
                  Message := "Un joueur dessine, essayez de deviner le mot !" } ∧
          s.dest ∈ clientKeys room.Clients) ∧
      (∀ other ∈ wordList,
        ¬ other.data <:+: "startGuessing".data ∧
          ¬ other.data <:+: "Un joueur dessine, essayez de deviner le mot !".data) := by
  obtain ⟨d, hd⟩ := nextDrawerOf_some o room nextDrawer hne
  have hp := rangeKeys_perm (o.order 3) room.Clients
  have heq : startNewRound closed o room nextDrawer
      = ({ room with CurrentDrawer := some d, WordToDraw := pickWord o.wordRand },
          ⟨d, { Typ := "yourWord", Message := pickWord o.wordRand },
              !sendErr closed (o.fails 3) d⟩ ::
            ((rangeKeys (o.order 3) room.Clients).filter (fun c => decide (c ≠ d))).map
              (fun c =>
                ⟨c, { Typ := "startGuessing",
                      Message := "Un joueur dessine, essayez de deviner le mot !" },
                  !sendErr closed (o.fails 4) c⟩)) := by
    simp [startNewRound, hd, writeJSON, yourWordMsg, startGuessingMsg]
  have hnd2 : ((rangeKeys (o.order 3) room.Clients).filter (fun c => decide (c ≠ d))).Nodup :=
    (hp.nodup_iff.mpr hnd).filter _
  rw [heq]
  refine ⟨d, pickWord o.wordRand, rfl, rfl, pickWord_eq _, pickWord_mem _, ⟨_, hp, rfl⟩, ?_, ?_,
    startGuessing_has_no_word⟩
  · intro c hc hcd
    have hhead : decide ((⟨d, { Typ := "yourWord", Message := pickWord o.wordRand },
        !sendErr closed (o.fails 3) d⟩ : Send).dest = c) = false := by
      simpa using fun h : d = c => hcd h.symm
    simp only [List.filter_cons, hhead]
    apply filter_dest_map _ _ (fun _ => rfl) hnd2 c
    exact List.mem_filter.mpr ⟨hp.mem_iff.mpr hc, by simpa using hcd⟩
  · intro s hs hsd
    simp only [List.mem_cons] at hs
    rcases hs with rfl | hs
    · exact absurd rfl hsd
    · obtain ⟨c, hc, rfl⟩ := List.mem_map.mp hs
      exact ⟨rfl, hp.mem_iff.mp (List.mem_of_mem_filter hc)⟩

/-- C14, at a concrete room: a round for `threePlayerRoom` with connection 2 as
next drawer. -/
theorem startNewRound_word_private_witness :
    threePlayerRoom.Clients ≠ [] ∧ (clientKeys threePlayerRoom.Clients).Nodup ∧
      ∃ (d : Conn) (word : String),
        (startNewRound [] Oracle.calm threePlayerRoom (some 2)).1.CurrentDrawer = some d ∧
        (startNewRound [] Oracle.calm threePlayerRoom (some 2)).1.WordToDraw = word ∧
        wordList[Oracle.calm.wordRand % wordList.length]? = some word ∧ word ∈ wordList ∧
        (∃ e : List Conn, e.Perm (clientKeys threePlayerRoom.Clients) ∧
          (startNewRound [] Oracle.calm threePlayerRoom (some 2)).2
            = ⟨d, { Typ := "yourWord", Message := word },
                  !sendErr [] (Oracle.calm.fails 3) d⟩ ::
              (e.filter (fun c => decide (c ≠ d))).map
                (fun c =>
                  ⟨c, { Typ := "startGuessing",
                        Message := "Un joueur dessine, essayez de deviner le mot !" },
                    !sendErr [] (Oracle.calm.fails 4) c⟩)) ∧
        (∀ c ∈ clientKeys threePlayerRoom.Clients, c ≠ d →
          (startNewRound [] Oracle.calm threePlayerRoom (some 2)).2.filter
              (fun s => decide (s.dest = c))
            = [⟨c, { Typ := "startGuessing",
                     Message := "Un joueur dessine, essayez de deviner le mot !" },
                 !sendErr [] (Oracle.calm.fails 4) c⟩]) ∧
        (∀ s ∈ (startNewRound [] Oracle.calm threePlayerRoom (some 2)).2, s.dest ≠ d →
          s.msg = { Typ := "startGuessing",
                    Message := "Un joueur dessine, essayez de deviner le mot !" } ∧
            s.dest ∈ clientKeys threePlayerRoom.Clients) ∧
        (∀ other ∈ wordList,
          ¬ other.data <:+: "startGuessing".data ∧
            ¬ other.data <:+: "Un joueur dessine, essayez de deviner le mot !".data) :=
  ⟨by decide, by decide,
    startNewRound_word_private [] Oracle.calm threePlayerRoom (some 2) (by decide) (by decide)⟩

theorem startNewRound_three_sample :
    startNewRound [] Oracle.calm threePlayerRoom (some 2)
      = (⟨"0", [(1, "Ada"), (2, "Bob"), (3, "Cyd")], some 2, "maison"⟩,
          [⟨2, { Typ := "yourWord", Message := "maison" }, true⟩,
           ⟨1, { Typ := "startGuessing",
                 Message := "Un joueur dessine, essayez de deviner le mot !" }, true⟩,
           ⟨3, { Typ := "startGuessing",
                 Message := "Un joueur dessine, essayez de deviner le mot !" }, true⟩]) := by
  decide

/-! ## The room a chat message goes to -/

theorem broadcastMessageLoop_trace_mem (fails : Conn → Bool) (msg : Message) (keys : List Conn) :
    ∀ (clients : ClientMap) (closed : List Conn),
      ∀ s ∈ (broadcastMessageLoop fails msg keys clients closed).2,
        s.msg = msg ∧ s.dest ∈ keys := by
  induction keys with
  | nil =>
    intro clients closed s hs
    simp [broadcastMessageLoop] at hs
  | cons c rest ih =>
    intro clients closed s hs
    unfold broadcastMessageLoop at hs
    split at hs
    · simp only [List.mem_cons] at hs
      rcases hs with rfl | hs
      · exact ⟨rfl, List.mem_cons_self _ _⟩
      · exact ⟨(ih _ _ s hs).1, List.mem_cons_of_mem _ (ih _ _ s hs).2⟩
    · simp only [List.mem_cons] at hs
      rcases hs with rfl | hs
      · exact ⟨rfl, List.mem_cons_self _ _⟩
      · exact ⟨(ih _ _ s hs).1, List.mem_cons_of_mem _ (ih _ _ s hs).2⟩

theorem broadcastMessage_trace (w : World) (ord : List Conn) (fails : Conn → Bool)
    (msg : Message) (code : String) (room : Room) (hr : findRoom w.rooms code = some room)
    (hnd : (clientKeys room.Clients).Nodup) :
    (broadcastMessage w ord fails msg code).2
      = (rangeKeys ord room.Clients).map (fun c => writeJSON w.closed fails c msg) := by
  simp only [broadcastMessage, hr]
  exact broadcastMessageLoop_trace fails msg _ _ _
    ((rangeKeys_perm ord room.Clients).nodup_iff.mpr hnd)

theorem twoRoomSession_run :
    (run World.empty twoRoomSession).map Prod.fst = some twoRoomWorld := by
  decide

/-- C12, as stated, fails: after `twoRoomSession` connection 3 belongs to room
`"1"` and is not a participant of room `"0"`; its chat message that names room
`"0"` is delivered to connections 1 and 2, the participants of room `"0"`, and to
nobody in room `"1"`. -/
theorem chat_reaches_foreign_room :
    (localOf twoRoomWorld 3).roomCode = "1" ∧
      findRoom twoRoomWorld.rooms "0"
        = some ⟨"0", [(1, "Anonyme"), (2, "Anonyme")], some 1, "maison"⟩ ∧
      step twoRoomWorld (Event.recv 3 helloMsg Oracle.calm)
        = some (twoRoomWorld,
            [⟨1, { helloMsg with Nickname := "Anonyme" }, true⟩,
             ⟨2, { helloMsg with Nickname := "Anonyme" }, true⟩]) := by
  decide

/-- C12, amended: a chat message from connection `c` is sent only to participants
of the room stored under the `roomCode` field of the message, whether or not `c`
is one of them, and to nobody when no room has that code; the room remembered by
the handler of `c` is not looked at.  Every message sent is the inbound message
with `Nickname` replaced by the name held by the handler of `c`, and when the
keys of that room are distinct each of its participants gets exactly one send. -/
theorem chat_goes_to_named_room (w : World) (o : Oracle) (c : Conn) (msg : Message)
    (hT : msg.Typ = "message") :
    ∃ p, handleMessage w o c msg = some p ∧
      (∀ s ∈ p.2, s.msg = { msg with Nickname := (localOf w c).nickname } ∧
        ∃ room, findRoom w.rooms msg.RoomCode = some room ∧ s.dest ∈ clientKeys room.Clients) ∧
      (∀ room, findRoom w.rooms msg.RoomCode = some room → (clientKeys room.Clients).Nodup →
        ∀ d ∈ clientKeys room.Clients,
          p.2.filter (fun s => decide (s.dest = d))
            = [writeJSON w.closed (o.fails 0) d
                { msg with Nickname := (localOf w c).nickname }]) := by
  refine ⟨handleChat w o c msg, handleMessage_chat w o c msg hT, ?_, ?_⟩
  · intro s hs
    unfold handleChat broadcastMessage at hs
    cases hr : findRoom w.rooms msg.RoomCode with
    | none =>
      rw [hr] at hs
      simp at hs
    | some room =>
      rw [hr] at hs
      obtain ⟨h1, h2⟩ := broadcastMessageLoop_trace_mem _ _ _ _ _ s hs
      exact ⟨h1, room, rfl, (mem_rangeKeys _ _ _).mp h2⟩
  · intro room hr hnd d hd
    have hp := rangeKeys_perm (o.order 0) room.Clients
    unfold handleChat
    rw [broadcastMessage_trace w _ _ _ _ room hr hnd]
    exact filter_dest_map _ _ (fun _ => rfl) (hp.nodup_iff.mpr hnd) d (hp.mem_iff.mpr hd)

/-- C12, amended, at a concrete state: the chat message of connection 3 for room
`"0"` after `twoRoomSession`. -/
theorem chat_goes_to_named_room_witness :
    helloMsg.Typ = "message" ∧
      ∃ p, handleMessage twoRoomWorld Oracle.calm 3 helloMsg = some p ∧
        (∀ s ∈ p.2, s.msg = { helloMsg with Nickname := (localOf twoRoomWorld 3).nickname } ∧
          ∃ room, findRoom twoRoomWorld.rooms helloMsg.RoomCode = some room ∧
            s.dest ∈ clientKeys room.Clients) ∧
        (∀ room, findRoom twoRoomWorld.rooms helloMsg.RoomCode = some room →
          (clientKeys room.Clients).Nodup →
          ∀ d ∈ clientKeys room.Clients,
            p.2.filter (fun s => decide (s.dest = d))
              = [writeJSON twoRoomWorld.closed (Oracle.calm.fails 0) d
                  { helloMsg with Nickname := (localOf twoRoomWorld 3).nickname }]) :=
  ⟨by decide, chat_goes_to_named_room twoRoomWorld Oracle.calm 3 helloMsg (by decide)⟩

/-! ## Rooms are never removed -/

theorem findRoom_putRoom_ne_none (rooms : List (String × Room)) (code k : String) (room : Room)
    (h : findRoom rooms k ≠ none) : findRoom (putRoom rooms code room) k ≠ none := by
  by_cases hk : k = code
  · subst hk
    rw [findRoom_putRoom_same]
    exact Option.some_ne_none _
  · rw [findRoom_putRoom_other _ _ _ _ hk]
    exact h

theorem broadcastMessage_keeps_rooms (w : World) (ord : List Conn) (fails : Conn → Bool)
    (msg : Message) (code k : String) (h : findRoom w.rooms k ≠ none) :
    findRoom (broadcastMessage w ord fails msg code).1.rooms k ≠ none := by
  unfold broadcastMessage
  cases hr : findRoom w.rooms code with
  | none => exact h
  | some room => exact findRoom_putRoom_ne_none _ _ _ _ h

theorem broadcastDraw_keeps_rooms (w : World) (ord : List Conn) (fails : Conn → Bool)
    (msg : Message) (code k : String) (sender : Conn) (h : findRoom w.rooms k ≠ none) :
    findRoom (broadcastDraw w ord fails msg code sender).1.rooms k ≠ none := by
  unfold broadcastDraw
  cases hr : findRoom w.rooms code with
  | none => exact h
  | some room => exact findRoom_putRoom_ne_none _ _ _ _ h

theorem handleDraw_keeps_rooms (w : World) (o : Oracle) (ws : Conn) (msg : Message)
    (k : String) (h : findRoom w.rooms k ≠ none) :
    findRoom (handleDraw w o ws msg).1.rooms k ≠ none := by
  unfold handleDraw
  cases hr : findRoom w.rooms msg.RoomCode with
  | none => exact h
  | some room =>
    simp only
    split
    · exact h
    · exact broadcastDraw_keeps_rooms _ _ _ _ _ _ _ h

theorem handleGuess_keeps_rooms (w : World) (o : Oracle) (ws : Conn) (msg : Message)
    (k : String) (h : findRoom w.rooms k ≠ none) :
    findRoom (handleGuess w o ws msg).1.rooms k ≠ none := by
  unfold handleGuess
  cases hr : findRoom w.rooms msg.RoomCode with
  | none => exact h
  | some room =>
    simp only
    split
    · have h2 := broadcastMessage_keeps_rooms
        (broadcastMessage w (o.order 0) (o.fails 0)
          (guessCorrectMsg (getClient room.Clients ws)) msg.RoomCode).1
        (o.order 1) (o.fails 2) clearCanvasMsg msg.RoomCode k
        (broadcastMessage_keeps_rooms w _ _ _ _ k h)
      split
      · exact h2
      · exact findRoom_putRoom_ne_none _ _ _ _ h2
    · exact broadcastMessage_keeps_rooms _ _ _ _ _ _ h

theorem handleJoinRoom_keeps_rooms (w : World) (o : Oracle) (ws : Conn) (msg : Message)
    (k : String) (h : findRoom w.rooms k ≠ none) :
    findRoom (handleJoinRoom w o ws msg).1.rooms k ≠ none := by
  unfold handleJoinRoom
  cases hr : findRoom w.rooms msg.RoomCode with
  | none => exact h
  | some room =>
    simp only
    split
    · exact findRoom_putRoom_ne_none _ _ _ _ h
    · exact findRoom_putRoom_ne_none _ _ _ _ h

theorem handleNickname_keeps_rooms (w : World) (ws : Conn) (msg : Message)
    (p : World × List Send) (k : String) (h : findRoom w.rooms k ≠ none)
    (hp : handleNickname w ws msg = some p) : findRoom p.1.rooms k ≠ none := by
  unfold handleNickname at hp
  simp only at hp
  split at hp
  · cases hr : findRoom w.rooms (localOf w ws).roomCode with
    | none =>
      rw [hr] at hp
      exact Option.noConfusion hp
    | some room =>
      rw [hr] at hp
      simp only [Option.some.injEq] at hp
      subst hp
      exact findRoom_putRoom_ne_none _ _ _ _ h
  · simp only [Option.some.injEq] at hp
    subst hp
    exact h

theorem handleMessage_keeps_rooms (w : World) (o : Oracle) (ws : Conn) (msg : Message)
    (p : World × List Send) (k : String) (h : findRoom w.rooms k ≠ none)
    (hp : handleMessage w o ws msg = some p) : findRoom p.1.rooms k ≠ none := by
  unfold handleMessage at hp
  split at hp
  · exact handleNickname_keeps_rooms w ws msg p k h hp
  · split at hp
    · simp only [Option.some.injEq] at hp
      subst hp
      exact findRoom_putRoom_ne_none _ _ _ _ h
    · split at hp
      · simp only [Option.some.injEq] at hp
        subst hp
        exact handleJoinRoom_keeps_rooms w o ws msg k h
      · split at hp
        · simp only [Option.some.injEq] at hp
          subst hp
          exact broadcastMessage_keeps_rooms _ _ _ _ _ _ h
        · split at hp
          · simp only [Option.some.injEq] at hp
            subst hp
            exact handleDraw_keeps_rooms w o ws msg k h
          · split at hp
            · simp only [Option.some.injEq] at hp
              subst hp
              exact handleGuess_keeps_rooms w o ws msg k h
            · simp only [Option.some.injEq] at hp
              subst hp
              exact h

theorem step_keeps_rooms (w : World) (e : Event) (p : World × List Send) (k : String)
    (h : findRoom w.rooms k ≠ none) (hp : step w e = some p) :
    findRoom p.1.rooms k ≠ none := by
  cases e with
  | recvFail ws =>
    simp only [step, Option.some.injEq] at hp
    subst hp
    exact h
  | recv ws msg o =>
    exact handleMessage_keeps_rooms w o ws msg p k h hp

theorem run_keeps_rooms (es : List Event) :
    ∀ (w : World) (p : World × List Send) (k : String), findRoom w.rooms k ≠ none →
      run w es = some p → findRoom p.1.rooms k ≠ none := by
  induction es with
  | nil =>
    intro w p k h hp
    simp only [run, Option.some.injEq] at hp
    subst hp
    exact h
  | cons e rest ih =>
    intro w p k h hp
    unfold run at hp
    cases hs : step w e with
    | none =>
      rw [hs] at hp
      exact Option.noConfusion hp
    | some q =>
      obtain ⟨w1, t1⟩ := q
      rw [hs] at hp
      simp only at hp
      have h1 : findRoom w1.rooms k ≠ none := step_keeps_rooms w e (w1, t1) k h hs
      cases hrest : run w1 rest with
      | none =>
        rw [hrest] at hp
        exact Option.noConfusion hp
      | some q2 =>
        obtain ⟨w2, t2⟩ := q2
        rw [hrest] at hp
        simp only [Option.some.injEq] at hp
        subst hp
        exact ih w1 (w2, t2) k h1 hrest

/-! ## Creating a room and joining it -/

theorem startNewRound_clients (closed : List Conn) (o : Oracle) (room : Room)
    (nextDrawer : Option Conn) :
    (startNewRound closed o room nextDrawer).1.Clients = room.Clients := rfl

theorem startNewRound_msg_types (closed : List Conn) (o : Oracle) (room : Room)
    (nextDrawer : Option Conn) :
    ∀ s ∈ (startNewRound closed o room nextDrawer).2,
      s.msg.Typ = "yourWord" ∨ s.msg.Typ = "startGuessing" := by
  intro s hs
  simp only [startNewRound, List.mem_append, List.mem_map] at hs
  rcases hs with hs | ⟨c, _, rfl⟩
  · split at hs
    · simp only [List.mem_singleton] at hs
      subst hs
      exact Or.inl rfl
    · simp at hs
  · exact Or.inr rfl

/-- C13: a `createRoom` message is handled in any state and returns code `k`;
then any events are handled; then a `joinRoom` message with code `k` from any
connection is handled.  The join does not fault, its first send is `roomJoined`
with code `k` to the joiner, none of its sends is of type `error`, and afterwards
a room is stored under `k` and the joiner is a key of its `Clients`. -/
theorem create_then_join (w : World) (o : Oracle) (c : Conn) (cmsg : Message)
    (es : List Event) (w2 : World) (tr : List Send) (o2 : Oracle) (j : Conn) (jmsg : Message)
    (hC : cmsg.Typ = "createRoom")
    (hrun : run (handleCreateRoom w o c).1 es = some (w2, tr))
    (hJ : jmsg.Typ = "joinRoom") (hk : jmsg.RoomCode = generateRoomCode o.codeRand) :
    handleMessage w o c cmsg = some (handleCreateRoom w o c) ∧
      (handleCreateRoom w o c).2
        = [writeJSON w.closed (o.fails 0) c
            { Typ := "roomCreated", RoomCode := generateRoomCode o.codeRand }] ∧
      ∃ p, handleMessage w2 o2 j jmsg = some p ∧
        p.2.head? = some (writeJSON w2.closed (o2.fails 0) j
          { Typ := "roomJoined", RoomCode := generateRoomCode o.codeRand }) ∧
        (∀ s ∈ p.2, s.msg.Typ ≠ "error") ∧
        ∃ room, findRoom p.1.rooms (generateRoomCode o.codeRand) = some room ∧
          j ∈ clientKeys room.Clients := by
  refine ⟨handleMessage_createRoom w o c cmsg hC, rfl, handleJoinRoom w2 o2 j jmsg,
    handleMessage_joinRoom w2 o2 j jmsg hJ, ?_⟩
  have h0 : findRoom (handleCreateRoom w o c).1.rooms (generateRoomCode o.codeRand) ≠ none := by
    simp only [handleCreateRoom, findRoom_putRoom_same]
    exact Option.some_ne_none _
  have h2 : findRoom w2.rooms jmsg.RoomCode ≠ none := by
    rw [hk]
    exact run_keeps_rooms es _ (w2, tr) _ h0 hrun
  obtain ⟨room, hroom⟩ := Option.ne_none_iff_exists'.mp h2
  rw [← hk]
  unfold handleJoinRoom
  rw [hroom]
  simp only
  split
  · refine ⟨rfl, ?_, _, findRoom_putRoom_same _ _ _, ?_⟩
    · intro s hs
      simp only [List.mem_cons] at hs
      rcases hs with rfl | hs
      · simp [writeJSON]
      · rcases startNewRound_msg_types _ _ _ _ s hs with h | h <;> rw [h] <;> decide
    · rw [startNewRound_clients]
      exact (mem_clientKeys_setClient _ _ _ _).mpr (Or.inl rfl)
  · refine ⟨rfl, ?_, _, findRoom_putRoom_same _ _ _, ?_⟩
    · intro s hs
      simp only [List.mem_singleton] at hs
      subst hs
      simp [writeJSON]
    · exact (mem_clientKeys_setClient _ _ _ _).mpr (Or.inl rfl)

/-- C13, at a concrete run: connection 1 creates room `"0"`, connection 3 creates
room `"1"`, the read on connection 1 fails, and connection 2 joins room `"0"`. -/
theorem create_then_join_witness :
    run (handleCreateRoom World.empty Oracle.calm 1).1
        [Event.recv 3 (mkMsg "createRoom" "") (Oracle.drawing 1), Event.recvFail 1]
      = some (createdWorld, [⟨3, { Typ := "roomCreated", RoomCode := "1" }, true⟩]) ∧
      ∃ p, handleMessage createdWorld Oracle.calm 2 (mkMsg "joinRoom" "0") = some p ∧
        p.2.head? = some (writeJSON createdWorld.closed (Oracle.calm.fails 0) 2
          { Typ := "roomJoined", RoomCode := generateRoomCode Oracle.calm.codeRand }) ∧
        (∀ s ∈ p.2, s.msg.Typ ≠ "error") ∧
        ∃ room, findRoom p.1.rooms (generateRoomCode Oracle.calm.codeRand) = some room ∧
          2 ∈ clientKeys room.Clients :=
  ⟨by decide,
    (create_then_join World.empty Oracle.calm 1 (mkMsg "createRoom" "")
      [Event.recv 3 (mkMsg "createRoom" "") (Oracle.drawing 1), Event.recvFail 1]
      createdWorld [⟨3, { Typ := "roomCreated", RoomCode := "1" }, true⟩] Oracle.calm 2
      (mkMsg "joinRoom" "0") (by decide) (by decide) (by decide) (by decide)).2.2⟩

/-! ## A drawer comes with a word -/

theorem wordList_nonempty_words : ∀ word ∈ wordList, word ≠ "" := by
  decide

theorem wordIsSet_of_word (r : Room) (h : r.WordToDraw ∈ wordList) : wordIsSet r :=
  fun _ => ⟨h, wordList_nonempty_words _ h⟩

theorem wordIsSet_clients (r : Room) (cl : ClientMap) (h : wordIsSet r) :
    wordIsSet { r with Clients := cl } := h

theorem wordInvariant_frame (w w1 : World) (code : String) (hinv : wordInvariant w)
    (hother : ∀ other, other ≠ code → findRoom w1.rooms other = findRoom w.rooms other)
    (hsame : ∀ r, findRoom w1.rooms code = some r → wordIsSet r) : wordInvariant w1 := by
  intro c r hr
  by_cases hc : c = code
  · subst hc
    exact hsame r hr
  · rw [hother c hc] at hr
    exact hinv c r hr

theorem broadcastMessage_wordInvariant (w : World) (ord : List Conn) (fails : Conn → Bool)
    (msg : Message) (code : String) (hinv : wordInvariant w) :
    wordInvariant (broadcastMessage w ord fails msg code).1 := by
  apply wordInvariant_frame w _ code hinv (fun other h => broadcastMessage_other _ _ _ _ _ _ h)
  intro r hr1
  cases hr : findRoom w.rooms code with
  | none =>
    simp only [broadcastMessage, hr] at hr1
    exact Option.noConfusion hr1
  | some room =>
    obtain ⟨cl, hcl⟩ := findRoom_broadcastMessage_same w ord fails msg code room hr
    rw [hcl] at hr1
    cases hr1
    exact wordIsSet_clients room cl (hinv code room hr)

theorem handleDraw_wordInvariant (w : World) (o : Oracle) (ws : Conn) (msg : Message)
    (hinv : wordInvariant w) : wordInvariant (handleDraw w o ws msg).1 := by
  unfold handleDraw
  cases hr : findRoom w.rooms msg.RoomCode with
  | none => exact hinv
  | some room =>
    simp only
    split
    · exact hinv
    · apply wordInvariant_frame w _ msg.RoomCode hinv
        (fun other h => broadcastDraw_other _ _ _ _ _ _ _ h)
      intro r hr1
      simp only [broadcastDraw, hr, findRoom_putRoom_same] at hr1
      cases hr1
      exact wordIsSet_clients room _ (hinv _ room hr)

theorem handleGuess_wordInvariant (w : World) (o : Oracle) (ws : Conn) (msg : Message)
    (hinv : wordInvariant w) : wordInvariant (handleGuess w o ws msg).1 := by
  cases hr : findRoom w.rooms msg.RoomCode with
  | none =>
    simp only [handleGuess, hr]
    exact hinv
  | some room =>
    by_cases hword : msg.Message = room.WordToDraw
    · apply wordInvariant_frame w _ msg.RoomCode hinv
        (fun other h => handleGuess_other w o ws msg other h)
      intro r hr1
      obtain ⟨cl, hcl⟩ := handleGuess_correct_drawer w o ws msg room hr hword
      rw [hcl] at hr1
      cases hr1
      exact wordIsSet_of_word _ (pickWord_mem _)
    · simp only [handleGuess, hr, hword, if_false]
      exact broadcastMessage_wordInvariant w _ _ _ _ hinv

theorem handleJoinRoom_wordInvariant (w : World) (o : Oracle) (ws : Conn) (msg : Message)
    (hinv : wordInvariant w) : wordInvariant (handleJoinRoom w o ws msg).1 := by
  unfold handleJoinRoom
  cases hr : findRoom w.rooms msg.RoomCode with
  | none => exact hinv
  | some room =>
    simp only
    split
    · apply wordInvariant_frame w _ msg.RoomCode hinv
        (fun other h => findRoom_putRoom_other _ _ _ _ h)
      intro r hr1
      simp only [findRoom_putRoom_same, Option.some.injEq] at hr1
      subst hr1
      exact wordIsSet_of_word _ (pickWord_mem _)
    · apply wordInvariant_frame w _ msg.RoomCode hinv
        (fun other h => findRoom_putRoom_other _ _ _ _ h)
      intro r hr1
      simp only [findRoom_putRoom_same, Option.some.injEq] at hr1
      subst hr1
      exact wordIsSet_clients room _ (hinv _ room hr)

theorem handleCreateRoom_wordInvariant (w : World) (o : Oracle) (ws : Conn)
    (hinv : wordInvariant w) : wordInvariant (handleCreateRoom w o ws).1 := by
  apply wordInvariant_frame w _ (generateRoomCode o.codeRand) hinv
  · intro other h
    simp only [handleCreateRoom]
    exact findRoom_putRoom_other _ _ _ _ h
  · intro r hr1
    simp only [handleCreateRoom, findRoom_putRoom_same, Option.some.injEq] at hr1
    subst hr1
    intro h
    exact absurd rfl h

theorem handleNickname_wordInvariant (w : World) (ws : Conn) (msg : Message)
    (p : World × List Send) (hinv : wordInvariant w)
    (h : handleNickname w ws msg = some p) : wordInvariant p.1 := by
  unfold handleNickname at h
  simp only at h
  split at h
  · cases hr : findRoom w.rooms (localOf w ws).roomCode with
    | none =>
      rw [hr] at h
      exact Option.noConfusion h
    | some room =>
      rw [hr] at h
      simp only [Option.some.injEq] at h
      subst h
      apply wordInvariant_frame w _ (localOf w ws).roomCode hinv
        (fun other h => findRoom_putRoom_other _ _ _ _ h)
      intro r hr1
      simp only [findRoom_putRoom_same, Option.some.injEq] at hr1
      subst hr1
      exact wordIsSet_clients room _ (hinv _ room hr)
  · simp only [Option.some.injEq] at h
    subst h
    exact hinv

theorem handleMessage_wordInvariant (w : World) (o : Oracle) (ws : Conn) (msg : Message)
    (p : World × List Send) (hinv : wordInvariant w)
    (h : handleMessage w o ws msg = some p) : wordInvariant p.1 := by
  unfold handleMessage at h
  split at h
  · exact handleNickname_wordInvariant w ws msg p hinv h
  · split at h
    · simp only [Option.some.injEq] at h
      subst h
      exact handleCreateRoom_wordInvariant w o ws hinv
    · split at h
      · simp only [Option.some.injEq] at h
        subst h
        exact handleJoinRoom_wordInvariant w o ws msg hinv
      · split at h
        · simp only [Option.some.injEq] at h
          subst h
          exact broadcastMessage_wordInvariant w _ _ _ _ hinv
        · split at h
          · simp only [Option.some.injEq] at h
            subst h
            exact handleDraw_wordInvariant w o ws msg hinv
          · split at h
            · simp only [Option.some.injEq] at h
              subst h
              exact handleGuess_wordInvariant w o ws msg hinv
            · simp only [Option.some.injEq] at h
              subst h
              exact hinv

theorem step_wordInvariant (w : World) (e : Event) (p : World × List Send)
    (hinv : wordInvariant w) (h : step w e = some p) : wordInvariant p.1 := by
  cases e with
  | recvFail ws =>
    simp only [step, Option.some.injEq] at h
    subst h
    exact hinv
  | recv ws msg o =>
    exact handleMessage_wordInvariant w o ws msg p hinv h

theorem reachable_wordInvariant (w : World) (h : ReachableVia (fun _ _ => true) w) :
    wordInvariant w := by
  induction h with
  | init =>
    intro c r hcr
    simp [World.empty, findRoom] at hcr
  | next w0 e w1 tr _ _ hstep ih =>
    exact step_wordInvariant w0 e (w1, tr) ih hstep

/-- C16: in every state reachable from the empty registry by any sequence of
events, with any random values, enumeration orders, send failures and failed
reads, every room whose `CurrentDrawer` is set has as `WordToDraw` an element of
`wordList`, which is not the empty string. -/
theorem drawer_has_word (w : World) (h : Reachable w) (code : String) (room : Room)
    (hr : findRoom w.rooms code = some room) (hd : room.CurrentDrawer ≠ none) :
    room.WordToDraw ∈ wordList ∧ room.WordToDraw ≠ "" :=
  reachable_wordInvariant w h code room hr hd

/-- C16, at a concrete state: room `"0"` after `drawerLostSession`, in which the
send to the drawer failed. -/
theorem drawer_has_word_witness :
    Reachable drawerLostWorld ∧
      findRoom drawerLostWorld.rooms "0" = some ⟨"0", [(2, "Anonyme")], some 1, "maison"⟩ ∧
      ("maison" ∈ wordList ∧ "maison" ≠ "") :=
  ⟨reachable_of_run drawerLostSession drawerLostWorld (by decide), by decide,
    drawer_has_word drawerLostWorld
      (reachable_of_run drawerLostSession drawerLostWorld (by decide)) "0"
      ⟨"0", [(2, "Anonyme")], some 1, "maison"⟩ (by decide) (by decide)⟩

/-! ## The room code remembered by a handler -/

theorem lookup_setLocal_same (ls : List (Conn × Local)) (c : Conn) (l : Local) :
    (setLocal ls c l).lookup c = some l := by
  induction ls with
  | nil => simp [setLocal, List.lookup]
  | cons p rest ih =>
    obtain ⟨k, v⟩ := p
    by_cases hk : k = c
    · simp [setLocal, hk, List.lookup]
    · have hne : (c == k) = false := by simpa using fun h => hk h.symm
      simpa [setLocal, hk, List.lookup, hne] using ih

theorem lookup_setLocal_other (ls : List (Conn × Local)) (c d : Conn) (l : Local) (h : d ≠ c) :
    (setLocal ls c l).lookup d = ls.lookup d := by
  induction ls with
  | nil =>
    have hne : (d == c) = false := by simpa using h
    simp [setLocal, List.lookup, hne]
  | cons p rest ih =>
    obtain ⟨k, v⟩ := p
    by_cases hk : k = c
    · have hne : (d == c) = false := by simpa using h
      simp [setLocal, hk, List.lookup, hne]
    · by_cases hd : d = k
      · have he : (d == k) = true := by simpa using hd
        simp [setLocal, hk, List.lookup, he]
      · have hne : (d == k) = false := by simpa using hd
        simpa [setLocal, hk, List.lookup, hne] using ih

theorem localOf_setLocal_same (w : World) (rooms : List (String × Room)) (c : Conn) (l : Local) :
    localOf { w with locals := setLocal w.locals c l, rooms := rooms } c = l := by
  simp [localOf, lookup_setLocal_same]

theorem localOf_setLocal_other (w : World) (rooms : List (String × Room)) (c d : Conn)
    (l : Local) (h : d ≠ c) :
    localOf { w with locals := setLocal w.locals c l, rooms := rooms } d = localOf w d := by
  simp [localOf, lookup_setLocal_other _ _ _ _ h]

theorem localOf_of_locals_eq (w w1 : World) (h : w1.locals = w.locals) (d : Conn) :
    localOf w1 d = localOf w d := by
  simp [localOf, h]

theorem broadcastMessage_locals (w : World) (ord : List Conn) (fails : Conn → Bool)
    (msg : Message) (code : String) : (broadcastMessage w ord fails msg code).1.locals = w.locals := by
  unfold broadcastMessage
  cases findRoom w.rooms code <;> rfl

theorem broadcastDraw_locals (w : World) (ord : List Conn) (fails : Conn → Bool)
    (msg : Message) (code : String) (sender : Conn) :
    (broadcastDraw w ord fails msg code sender).1.locals = w.locals := by
  unfold broadcastDraw
  cases findRoom w.rooms code <;> rfl

theorem handleDraw_locals (w : World) (o : Oracle) (ws : Conn) (msg : Message) :
    (handleDraw w o ws msg).1.locals = w.locals := by
  unfold handleDraw
  cases findRoom w.rooms msg.RoomCode with
  | none => rfl
  | some room =>
    simp only
    split
    · rfl
    · exact broadcastDraw_locals _ _ _ _ _ _

theorem handleGuess_locals (w : World) (o : Oracle) (ws : Conn) (msg : Message) :
    (handleGuess w o ws msg).1.locals = w.locals := by
  unfold handleGuess
  cases findRoom w.rooms msg.RoomCode with
  | none => rfl
  | some room =>
    simp only
    split
    · split
      · simp only [broadcastMessage_locals]
      · simp only [broadcastMessage_locals]
    · exact broadcastMessage_locals _ _ _ _ _

theorem handleNickname_local_codes (w : World) (ws : Conn) (msg : Message)
    (p : World × List Send) (hp : handleNickname w ws msg = some p) (d : Conn) :
    (localOf p.1 d).roomCode = (localOf w d).roomCode := by
  unfold handleNickname at hp
  simp only at hp
  by_cases hd : d = ws
  · subst hd
    split at hp
    · cases hr : findRoom w.rooms (localOf w d).roomCode with
      | none =>
        rw [hr] at hp
        exact Option.noConfusion hp
      | some room =>
        rw [hr] at hp
        simp only [Option.some.injEq] at hp
        subst hp
        simp only [localOf_setLocal_same]
    · simp only [Option.some.injEq] at hp
      subst hp
      simp only [localOf, lookup_setLocal_same, Option.getD_some]
  · split at hp
    · cases hr : findRoom w.rooms (localOf w ws).roomCode with
      | none =>
        rw [hr] at hp
        exact Option.noConfusion hp
      | some room =>
        rw [hr] at hp
        simp only [Option.some.injEq] at hp
        subst hp
        simp only [localOf_setLocal_other _ _ _ _ _ hd]
    · simp only [Option.some.injEq] at hp
      subst hp
      simp only [localOf, lookup_setLocal_other _ _ _ _ hd]

theorem handleCreateRoom_local_codes (w : World) (o : Oracle) (ws : Conn) (d : Conn) :
    (localOf (handleCreateRoom w o ws).1 d).roomCode = (localOf w d).roomCode ∨
      findRoom (handleCreateRoom w o ws).1.rooms (localOf (handleCreateRoom w o ws).1 d).roomCode
        ≠ none := by
  by_cases hd : d = ws
  · subst hd
    right
    simp only [handleCreateRoom, localOf_setLocal_same, findRoom_putRoom_same]
    exact Option.some_ne_none _
  · left
    simp only [handleCreateRoom, localOf_setLocal_other _ _ _ _ _ hd]

theorem handleJoinRoom_local_codes (w : World) (o : Oracle) (ws : Conn) (msg : Message)
    (d : Conn) :
    (localOf (handleJoinRoom w o ws msg).1 d).roomCode = (localOf w d).roomCode ∨
      findRoom (handleJoinRoom w o ws msg).1.rooms
        (localOf (handleJoinRoom w o ws msg).1 d).roomCode ≠ none := by
  unfold handleJoinRoom
  cases hr : findRoom w.rooms msg.RoomCode with
  | none => exact Or.inl rfl
  | some room =>
    simp only
    by_cases hd : d = ws
    · subst hd
      right
      split
      · simp only [localOf_setLocal_same, findRoom_putRoom_same]
        exact Option.some_ne_none _
      · simp only [localOf_setLocal_same, findRoom_putRoom_same]
        exact Option.some_ne_none _
    · left
      split
      · simp only [localOf_setLocal_other _ _ _ _ _ hd]
      · simp only [localOf_setLocal_other _ _ _ _ _ hd]

theorem handleMessage_local_codes (w : World) (o : Oracle) (ws : Conn) (msg : Message)
    (p : World × List Send) (hp : handleMessage w o ws msg = some p) (d : Conn) :
    (localOf p.1 d).roomCode = (localOf w d).roomCode ∨
      findRoom p.1.rooms (localOf p.1 d).roomCode ≠ none := by
  unfold handleMessage at hp
  split at hp
  · exact Or.inl (handleNickname_local_codes w ws msg p hp d)
  · split at hp
    · simp only [Option.some.injEq] at hp
      subst hp
      exact handleCreateRoom_local_codes w o ws d
    · split at hp
      · simp only [Option.some.injEq] at hp
        subst hp
        exact handleJoinRoom_local_codes w o ws msg d
      · split at hp
        · simp only [Option.some.injEq] at hp
          subst hp
          exact Or.inl (congrArg Local.roomCode
            (localOf_of_locals_eq w _ (broadcastMessage_locals _ _ _ _ _) d))
        · split at hp
          · simp only [Option.some.injEq] at hp
            subst hp
            exact Or.inl (congrArg Local.roomCode
              (localOf_of_locals_eq w _ (handleDraw_locals _ _ _ _) d))
          · split at hp
            · simp only [Option.some.injEq] at hp
              subst hp
              exact Or.inl (congrArg Local.roomCode
                (localOf_of_locals_eq w _ (handleGuess_locals _ _ _ _) d))
            · simp only [Option.some.injEq] at hp
              subst hp
              exact Or.inl rfl

theorem step_localInvariant (w : World) (e : Event) (p : World × List Send)
    (hinv : localInvariant w) (hp : step w e = some p) : localInvariant p.1 := by
  intro d hd
  have hcodes : (localOf p.1 d).roomCode = (localOf w d).roomCode ∨
      findRoom p.1.rooms (localOf p.1 d).roomCode ≠ none := by
    cases e with
    | recvFail ws =>
      simp only [step, Option.some.injEq] at hp
      subst hp
      exact Or.inl rfl
    | recv ws msg o =>
      exact handleMessage_local_codes w o ws msg p hp d
  rcases hcodes with hsame | hex
  · rw [hsame] at hd ⊢
    exact step_keeps_rooms w e p _ (hinv d hd) hp
  · exact hex

theorem reachable_localInvariant (w : World) (h : ReachableVia (fun _ _ => true) w) :
    localInvariant w := by
  induction h with
  | init =>
    intro c hc
    simp [World.empty, localOf] at hc
  | next w0 e w1 tr _ _ hstep ih =>
    exact step_localInvariant w0 e (w1, tr) ih hstep

/-- C19: in every state reachable from the empty registry by any sequence of
events, the room code remembered by a handler is empty or a key of the registry.
So a `nickname` message from any connection `c` is handled without fault and
without a send: the handler of `c` holds the new name afterwards; if it remembers
a room code, the room stored under it has the new name as the entry of `c`, every
other entry as before, and its other fields unchanged; every room stored under
another code is unchanged. -/
theorem nickname_never_faults (w : World) (h : Reachable w) (o : Oracle) (c : Conn)
    (msg : Message) (hT : msg.Typ = "nickname") :
    (∀ d, (localOf w d).roomCode ≠ "" →
        ∃ room, findRoom w.rooms (localOf w d).roomCode = some room) ∧
      ∃ p, handleMessage w o c msg = some p ∧ p.2 = [] ∧
        (localOf p.1 c).nickname = msg.Nickname ∧
        ((localOf w c).roomCode ≠ "" →
          ∃ room0 room1, findRoom w.rooms (localOf w c).roomCode = some room0 ∧
            findRoom p.1.rooms (localOf w c).roomCode = some room1 ∧
            room1 = { room0 with Clients := setClient room0.Clients c msg.Nickname } ∧
            room1.Clients.lookup c = some msg.Nickname ∧
            ∀ d, d ≠ c → room1.Clients.lookup d = room0.Clients.lookup d) ∧
        (∀ other, other ≠ (localOf w c).roomCode →
          findRoom p.1.rooms other = findRoom w.rooms other) := by
  have hinv := reachable_localInvariant w h
  refine ⟨fun d hd => Option.ne_none_iff_exists'.mp (hinv d hd), ?_⟩
  rw [handleMessage_nickname w o c msg hT]
  by_cases hrc : (localOf w c).roomCode = ""
  · have heq : handleNickname w c msg
        = some ((⟨w.rooms, setLocal w.locals c ⟨msg.Nickname, (localOf w c).roomCode⟩,
            w.closed⟩ : World), []) := by
      simp only [handleNickname, hrc, ne_eq, not_true_eq_false, if_false]
    rw [heq]
    refine ⟨_, rfl, rfl, ?_, fun hne => absurd hrc hne, fun _ _ => rfl⟩
    simp only [localOf, lookup_setLocal_same, Option.getD_some]
  · obtain ⟨room0, hroom0⟩ := Option.ne_none_iff_exists'.mp (hinv c hrc)
    have heq : handleNickname w c msg
        = some ((⟨putRoom w.rooms (localOf w c).roomCode
              ⟨room0.Code, setClient room0.Clients c msg.Nickname, room0.CurrentDrawer,
                room0.WordToDraw⟩,
            setLocal w.locals c ⟨msg.Nickname, (localOf w c).roomCode⟩, w.closed⟩ : World),
            []) := by
      simp only [handleNickname, ne_eq, hrc, not_false_eq_true, if_true, hroom0]
    rw [heq]
    refine ⟨_, rfl, rfl, ?_, ?_, ?_⟩
    · simp only [localOf_setLocal_same]
    · intro _
      exact ⟨room0, _, hroom0, findRoom_putRoom_same _ _ _, rfl, lookup_setClient_same _ _ _,
        fun d hd => lookup_setClient_other _ _ _ _ hd⟩
    · intro other hne
      exact findRoom_putRoom_other _ _ _ _ hne

/-- C19, at a concrete state: after `twoRoomSession`, connection 2, which
remembers room `"0"`, sets its name to `"Zoe"`. -/
theorem nickname_never_faults_witness :
    Reachable twoRoomWorld ∧ zoeMsg.Typ = "nickname" ∧
      ∃ p, handleMessage twoRoomWorld Oracle.calm 2 zoeMsg = some p ∧ p.2 = [] ∧
        (localOf p.1 2).nickname = zoeMsg.Nickname ∧
        ((localOf twoRoomWorld 2).roomCode ≠ "" →
          ∃ room0 room1, findRoom twoRoomWorld.rooms (localOf twoRoomWorld 2).roomCode = some room0 ∧
            findRoom p.1.rooms (localOf twoRoomWorld 2).roomCode = some room1 ∧
            room1 = { room0 with Clients := setClient room0.Clients 2 zoeMsg.Nickname } ∧
            room1.Clients.lookup 2 = some zoeMsg.Nickname ∧
            ∀ d, d ≠ 2 → room1.Clients.lookup d = room0.Clients.lookup d) ∧
        (∀ other, other ≠ (localOf twoRoomWorld 2).roomCode →
          findRoom p.1.rooms other = findRoom twoRoomWorld.rooms other) :=
  ⟨reachable_of_run twoRoomSession twoRoomWorld (by decide), by decide,
    (nickname_never_faults twoRoomWorld
      (reachable_of_run twoRoomSession twoRoomWorld (by decide)) Oracle.calm 2 zoeMsg
      (by decide)).2⟩

theorem nickname_sample :
    (handleMessage twoRoomWorld Oracle.calm 2 zoeMsg).map (fun p => findRoom p.1.rooms "0")
      = some (some ⟨"0", [(1, "Anonyme"), (2, "Zoe")], some 1, "maison"⟩) := by
  decide

/-! ## Relays at a concrete state -/

/-- C11, at a concrete state: connection 2 guesses `"soleil"` in room `"0"`, whose
word is `"maison"`, after `twoPlayerSession`. -/
theorem handleGuess_wrong_relayed_witness :
    findRoom twoPlayerWorld.rooms wrongGuess.RoomCode
        = some ⟨"0", [(1, "Anonyme"), (2, "Anonyme")], some 1, "maison"⟩ ∧
      (handleGuess twoPlayerWorld Oracle.calm 2 wrongGuess).1 = twoPlayerWorld ∧
      (∃ e : List Conn, e.Perm [1, 2] ∧
        (handleGuess twoPlayerWorld Oracle.calm 2 wrongGuess).2
          = e.map (fun c =>
              ⟨c, { Typ := "message", Nickname := "Anonyme", Message := "soleil" }, true⟩)) ∧
      (∀ c ∈ ([1, 2] : List Conn),
        (handleGuess twoPlayerWorld Oracle.calm 2 wrongGuess).2.filter
            (fun s => decide (s.dest = c))
          = [⟨c, { Typ := "message", Nickname := "Anonyme", Message := "soleil" }, true⟩]) ∧
      (∀ s ∈ (handleGuess twoPlayerWorld Oracle.calm 2 wrongGuess).2, s.dest ∈ ([1, 2] : List Conn)) :=
  ⟨by decide,
    handleGuess_wrong_relayed twoPlayerWorld Oracle.calm 2 wrongGuess
      ⟨"0", [(1, "Anonyme"), (2, "Anonyme")], some 1, "maison"⟩ "Anonyme" (by decide)
      (by decide) (by decide) (by decide)
      (by intro c _; simp [sendErr, twoPlayerWorld, Oracle.calm])⟩

/-- C17, at a concrete state: connection 1, the drawer of room `"0"` after
`twoPlayerSession`, sends a stroke. -/
theorem handleDraw_drawer_relayed_witness :
    findRoom twoPlayerWorld.rooms strokeMsg.RoomCode
        = some ⟨"0", [(1, "Anonyme"), (2, "Anonyme")], some 1, "maison"⟩ ∧
      (handleDraw twoPlayerWorld Oracle.calm 1 strokeMsg).1 = twoPlayerWorld ∧
      (∀ c ∈ ([1, 2] : List Conn), c ≠ 1 →
        (handleDraw twoPlayerWorld Oracle.calm 1 strokeMsg).2.filter
            (fun s => decide (s.dest = c)) = [⟨c, strokeMsg, true⟩]) ∧
      (∀ s ∈ (handleDraw twoPlayerWorld Oracle.calm 1 strokeMsg).2,
        s.dest ∈ ([1, 2] : List Conn) ∧ s.dest ≠ 1) :=
  ⟨by decide,
    handleDraw_drawer_relayed twoPlayerWorld Oracle.calm 1 strokeMsg
      ⟨"0", [(1, "Anonyme"), (2, "Anonyme")], some 1, "maison"⟩ (by decide) (by decide)
      (by decide) (by intro c _ _; simp [sendErr, twoPlayerWorld, Oracle.calm])⟩

theorem relay_samples :
    handleGuess twoPlayerWorld Oracle.calm 2 wrongGuess
        = (twoPlayerWorld,
            [⟨1, { Typ := "message", Nickname := "Anonyme", Message := "soleil" }, true⟩,
             ⟨2, { Typ := "message", Nickname := "Anonyme", Message := "soleil" }, true⟩]) ∧
      handleDraw twoPlayerWorld Oracle.calm 1 strokeMsg
        = (twoPlayerWorld, [⟨2, strokeMsg, true⟩]) := by
  decide

/-! ## The drawer under interleaved sections -/

theorem broadcastDrawLoop_keeps (fails : Conn → Bool) (msg : Message) (sender d : Conn)
    (keys : List Conn) :
    ∀ (clients : ClientMap) (closed : List Conn),
      d ∈ clientKeys clients → sendErr closed fails d = false →
      d ∈ clientKeys (broadcastDrawLoop fails msg sender keys clients closed).1.1 := by
  induction keys with
  | nil => intro clients closed hd _; exact hd
  | cons c rest ih =>
    intro clients closed hd herr
    unfold broadcastDrawLoop
    by_cases hc : c = sender
    · simp only [hc, ne_eq, not_true_eq_false, if_false]
      exact ih _ _ hd herr
    · simp only [ne_eq, hc, not_false_eq_true, if_true]
      split
      · rename_i hcf
        have hne : d ≠ c := by
          intro he
          rw [he, hcf] at herr
          exact Bool.noConfusion herr
        have h1 : d ∈ clientKeys (deleteClient clients c) :=
          (mem_clientKeys_deleteClient clients c d).mpr ⟨hne, hd⟩
        have h2 : sendErr (closeConn closed c) fails d = false := by
          rw [sendErr_closeConn_of_ne closed fails c d hne]
          exact herr
        exact ih _ _ h1 h2
      · exact ih _ _ hd herr

theorem broadcastDraw_drawerInvariant (w : World) (ord : List Conn) (fails : Conn → Bool)
    (msg : Message) (code : String) (sender : Conn) (hinv : drawerInvariant w)
    (hsafe : ∀ room d, findRoom w.rooms code = some room → room.CurrentDrawer = some d →
      d = sender ∨ sendErr w.closed fails d = false) :
    drawerInvariant (broadcastDraw w ord fails msg code sender).1 := by
  apply drawerInvariant_frame w _ code hinv (fun other h => broadcastDraw_other _ _ _ _ _ _ _ h)
  intro r hr1
  cases hr : findRoom w.rooms code with
  | none =>
    simp only [broadcastDraw, hr] at hr1
    exact Option.noConfusion hr1
  | some room =>
    simp only [broadcastDraw, hr, findRoom_putRoom_same] at hr1
    cases hr1
    have hm := hinv code room hr
    unfold drawerIsMember at hm ⊢
    cases hd : room.CurrentDrawer with
    | none => simp [hd]
    | some d =>
      rw [hd] at hm
      simp only [hd]
      rcases hsafe room d hr hd with rfl | herr
      · exact broadcastDrawLoop_keeps_sender _ _ _ _ _ _ hm
      · exact broadcastDrawLoop_keeps _ _ _ _ _ _ _ hm herr

theorem runAtom_drawerInvariant (w : World) (a : Atom) (hinv : drawerInvariant w)
    (hok : atomKeepsDrawer w a = true) : drawerInvariant (runAtom w a) := by
  cases a with
  | assign code ws name =>
    cases hr : findRoom w.rooms code with
    | none =>
      simp only [runAtom, hr]
      exact hinv
    | some room =>
      simp only [runAtom, hr]
      apply drawerInvariant_frame w _ code hinv
        (fun other h => findRoom_putRoom_other _ _ _ _ h)
      intro r hr1
      simp only [findRoom_putRoom_same, Option.some.injEq] at hr1
      subst hr1
      exact drawerIsMember_setClient room ws name (hinv _ room hr)
  | create code ws name =>
    apply drawerInvariant_frame w _ code hinv
    · intro other h
      exact findRoom_putRoom_other _ _ _ _ h
    · intro r hr1
      simp only [runAtom, findRoom_putRoom_same, Option.some.injEq] at hr1
      subst hr1
      trivial
  | round code nextDrawer o =>
    cases hr : findRoom w.rooms code with
    | none =>
      simp only [runAtom, hr]
      exact hinv
    | some room =>
      simp only [runAtom, hr]
      apply drawerInvariant_frame w _ code hinv
        (fun other h => findRoom_putRoom_other _ _ _ _ h)
      intro r hr1
      simp only [findRoom_putRoom_same, Option.some.injEq] at hr1
      subst hr1
      unfold drawerIsMember
      cases hd : (startNewRound w.closed o room nextDrawer).1.CurrentDrawer with
      | none => trivial
      | some d =>
        simp only
        have hd2 : nextDrawerOf o room nextDrawer = some d := hd
        cases nextDrawer with
        | none => exact nextDrawerOf_none_mem o room d hd2
        | some g =>
          simp only [atomKeepsDrawer, hr, decide_eq_true_eq] at hok
          simp only [nextDrawerOf, Option.some.injEq] at hd2
          subst hd2
          exact hok
  | broadcast code msg ord fails =>
    apply broadcastMessage_drawerInvariant w ord fails msg code hinv
    intro room d hr hd
    simp only [atomKeepsDrawer, hr, hd] at hok
    simpa using hok
  | broadcastDraw code msg sender ord fails =>
    apply broadcastDraw_drawerInvariant w ord fails msg code sender hinv
    intro room d hr hd
    simp only [atomKeepsDrawer, hr, hd, Bool.or_eq_true, decide_eq_true_eq,
      Bool.not_eq_true'] at hok
    exact hok
  | close ws => exact hinv

theorem atomReachable_of_runAtomsVia (ok : World → Atom → Bool) (atoms : List Atom) :
    ∀ (w w1 : World), AtomReachable ok w → runAtomsVia ok w atoms = some w1 →
      AtomReachable ok w1 := by
  induction atoms with
  | nil =>
    intro w w1 hw h
    simp only [runAtomsVia, Option.some.injEq] at h
    exact h ▸ hw
  | cons a rest ih =>
    intro w w1 hw h
    unfold runAtomsVia at h
    split at h
    · rename_i hoka
      exact ih _ w1 (AtomReachable.next w a hw hoka) h
    · exact Option.noConfusion h

/-- C1, amended: the shared state changes only in the sections that run under the
mutex and by `Close`, so every interleaving of handlers is a sequence of these
sections.  In every state reachable from the empty registry by any such sequence,
with any arguments, random values, enumeration orders and send failures, in which
no broadcast fails to reach the drawer of the room it addresses and every
`startNewRound` that is given a connection as next drawer finds it among the keys
of `Clients`, every room's `CurrentDrawer` is unset or a key of that room's
`Clients`. -/
theorem drawer_member_invariant (w : World) (h : AtomReachable atomKeepsDrawer w) :
    drawerInvariant w := by
  induction h with
  | init =>
    intro code room hr
    simp [World.empty, findRoom] at hr
  | next w0 a _ hok ih => exact runAtom_drawerInvariant w0 a ih hok

/-- C1, amended, at a concrete state: `interleavedAtoms` has a matching guess cut
in two by a broadcast of another handler, two failed sends to connections that
are not drawing, and the end of a handler; every section passes
`atomKeepsDrawer`, and at the end the drawer, connection 2, is a participant. -/
theorem drawer_member_invariant_witness :
    runAtomsVia atomKeepsDrawer World.empty interleavedAtoms = some interleavedWorld ∧
      AtomReachable atomKeepsDrawer interleavedWorld ∧ drawerInvariant interleavedWorld :=
  ⟨by decide,
    atomReachable_of_runAtomsVia atomKeepsDrawer interleavedAtoms World.empty interleavedWorld
      AtomReachable.init (by decide),
    drawer_member_invariant interleavedWorld
      (atomReachable_of_runAtomsVia atomKeepsDrawer interleavedAtoms World.empty
        interleavedWorld AtomReachable.init (by decide))⟩

theorem evicted_guesser_becomes_drawer :
    (runAtoms World.empty evictedGuesserAtoms).rooms
        = [("0", ⟨"0", [(1, "Anonyme"), (2, "Anonyme")], some 3, "maison"⟩)] ∧
      runAtomsVia atomKeepsDrawer World.empty evictedGuesserAtoms = none := by
  decide

/-! ## The sections outside the check -/

theorem broadcastDrawLoop_clients (fails : Conn → Bool) (msg : Message) (sender : Conn)
    (keys : List Conn) :
    ∀ (clients : ClientMap) (closed : List Conn), keys.Nodup →
      (broadcastDrawLoop fails msg sender keys clients closed).1.1
        = clients.filter (fun p =>
            !(decide (p.1 ∈ keys) && decide (p.1 ≠ sender) && sendErr closed fails p.1)) := by
  induction keys with
  | nil => intro clients closed _; simp [broadcastDrawLoop]
  | cons c rest ih =>
    intro clients closed hnd
    have hc : c ∉ rest := (List.nodup_cons.mp hnd).1
    have hr : rest.Nodup := (List.nodup_cons.mp hnd).2
    unfold broadcastDrawLoop
    by_cases hcs : c = sender
    · simp only [hcs, ne_eq, not_true_eq_false, if_false]
      rw [ih _ _ hr]
      apply List.filter_congr
      intro p _
      by_cases hps : p.1 = sender
      · simp [hps]
      · simp [hps]
    · simp only [ne_eq, hcs, not_false_eq_true, if_true]
      split
      · rename_i herr
        simp only
        rw [ih _ _ hr, deleteClient, List.filter_filter]
        apply List.filter_congr
        intro p _
        by_cases hpc : p.1 = c
        · simp [hpc, herr, hcs]
        · have := sendErr_closeConn_of_ne closed fails c p.1 hpc
          simp [hpc, this]
      · rename_i herr
        simp only
        rw [ih _ _ hr]
        apply List.filter_congr
        intro p _
        by_cases hpc : p.1 = c
        · simp [hpc, herr, hc]
        · simp [hpc]

theorem not_mem_clientKeys_filter (m : ClientMap) (q : Conn × String → Bool) (d : Conn)
    (h : ∀ p ∈ m, p.1 = d → q p = false) : d ∉ clientKeys (m.filter q) := by
  intro hd
  simp only [clientKeys, List.mem_map, List.mem_filter] at hd
  obtain ⟨p, ⟨hp, hq⟩, hpd⟩ := hd
  rw [h p hp hpd] at hq
  exact Bool.noConfusion hq

theorem atom_outside_check_breaks (w : World) (a : Atom) (hinv : drawerInvariant w)
    (hnd : ∀ code room, findRoom w.rooms code = some room → (clientKeys room.Clients).Nodup)
    (hbad : atomKeepsDrawer w a = false) : ¬ drawerInvariant (runAtom w a) := by
  intro hafter
  cases a with
  | assign code ws name => simp [atomKeepsDrawer] at hbad
  | create code ws name => simp [atomKeepsDrawer] at hbad
  | close ws => simp [atomKeepsDrawer] at hbad
  | round code nextDrawer o =>
    cases nextDrawer with
    | none => simp [atomKeepsDrawer] at hbad
    | some g =>
      cases hr : findRoom w.rooms code with
      | none => simp [atomKeepsDrawer, hr] at hbad
      | some room =>
        simp only [atomKeepsDrawer, hr, decide_eq_false_iff_not] at hbad
        have h1 := hafter code (startNewRound w.closed o room (some g)).1
          (by simp only [runAtom, hr, findRoom_putRoom_same])
        rw [startNewRound_given_drawer] at h1
        exact hbad h1
  | broadcast code msg ord fails =>
    cases hr : findRoom w.rooms code with
    | none => simp [atomKeepsDrawer, hr] at hbad
    | some room =>
      cases hd : room.CurrentDrawer with
      | none => simp [atomKeepsDrawer, hr, hd] at hbad
      | some d =>
        simp only [atomKeepsDrawer, hr, hd, Bool.not_eq_false'] at hbad
        have hp := rangeKeys_perm ord room.Clients
        have hnd2 : (rangeKeys ord room.Clients).Nodup := hp.nodup_iff.mpr (hnd code room hr)
        have hmem : d ∈ clientKeys room.Clients := by
          have := hinv code room hr
          unfold drawerIsMember at this
          rw [hd] at this
          exact this
        have h1 := hafter code
          ⟨room.Code,
            (broadcastMessageLoop fails msg (rangeKeys ord room.Clients) room.Clients w.closed).1.1,
            room.CurrentDrawer, room.WordToDraw⟩
          (by simp only [runAtom, broadcastMessage, hr, findRoom_putRoom_same])
        unfold drawerIsMember at h1
        simp only [hd] at h1
        rw [broadcastMessageLoop_clients fails msg _ _ _ hnd2] at h1
        refine not_mem_clientKeys_filter _ _ d ?_ h1
        intro p _ hpd
        simp [hpd, hbad, (mem_rangeKeys ord room.Clients d).mpr hmem]
  | broadcastDraw code msg sender ord fails =>
    cases hr : findRoom w.rooms code with
    | none => simp [atomKeepsDrawer, hr] at hbad
    | some room =>
      cases hd : room.CurrentDrawer with
      | none => simp [atomKeepsDrawer, hr, hd] at hbad
      | some d =>
        simp only [atomKeepsDrawer, hr, hd, Bool.or_eq_false_iff, decide_eq_false_iff_not,
          Bool.not_eq_false'] at hbad
        obtain ⟨hds, herr⟩ := hbad
        have hp := rangeKeys_perm ord room.Clients
        have hnd2 : (rangeKeys ord room.Clients).Nodup := hp.nodup_iff.mpr (hnd code room hr)
        have hmem : d ∈ clientKeys room.Clients := by
          have := hinv code room hr
          unfold drawerIsMember at this
          rw [hd] at this
          exact this
        have h1 := hafter code
          ⟨room.Code,
            (broadcastDrawLoop fails msg sender (rangeKeys ord room.Clients) room.Clients
              w.closed).1.1,
            room.CurrentDrawer, room.WordToDraw⟩
          (by simp only [runAtom, broadcastDraw, hr, findRoom_putRoom_same])
        unfold drawerIsMember at h1
        simp only [hd] at h1
        rw [broadcastDrawLoop_clients fails msg sender _ _ _ hnd2] at h1
        refine not_mem_clientKeys_filter _ _ d ?_ h1
        intro p _ hpd
        simp [hpd, herr, hds, (mem_rangeKeys ord room.Clients d).mpr hmem]

/-! ## The handlers as sequences of sections -/

theorem putRoom_putRoom (rooms : List (String × Room)) (code : String) (a b : Room) :
    putRoom (putRoom rooms code a) code b = putRoom rooms code b := by
  induction rooms with
  | nil => simp [putRoom]
  | cons p rest ih =>
    obtain ⟨k, v⟩ := p
    by_cases hk : k = code
    · simp [putRoom, hk]
    · simp [putRoom, hk, ih]

theorem handleMessage_is_atoms (w : World) (o : Oracle) (ws : Conn) (msg : Message)
    (p : World × List Send) (h : handleMessage w o ws msg = some p) :
    (runAtoms w (atomsOf w o ws msg)).rooms = p.1.rooms ∧
      (runAtoms w (atomsOf w o ws msg)).closed = p.1.closed := by
  by_cases h1 : msg.Typ = "nickname"
  · rw [handleMessage_nickname w o ws msg h1] at h
    unfold handleNickname at h
    simp only at h
    by_cases hrc : (localOf w ws).roomCode = ""
    · simp only [hrc, ne_eq, not_true_eq_false, if_false, Option.some.injEq] at h
      subst h
      simp [atomsOf, h1, hrc, runAtoms]
    · simp only [ne_eq, hrc, not_false_eq_true, if_true] at h
      cases hr : findRoom w.rooms (localOf w ws).roomCode with
      | none =>
        rw [hr] at h
        exact Option.noConfusion h
      | some room =>
        rw [hr] at h
        simp only [Option.some.injEq] at h
        subst h
        simp [atomsOf, h1, hrc, runAtoms, runAtom, hr]
  · by_cases h2 : msg.Typ = "createRoom"
    · rw [handleMessage_createRoom w o ws msg h2] at h
      simp only [Option.some.injEq] at h
      subst h
      simp [atomsOf, h1, h2, runAtoms, runAtom, handleCreateRoom]
    · by_cases h3 : msg.Typ = "joinRoom"
      · rw [handleMessage_joinRoom w o ws msg h3] at h
        simp only [Option.some.injEq] at h
        subst h
        cases hr : findRoom w.rooms msg.RoomCode with
        | none => simp [atomsOf, h1, h2, h3, hr, runAtoms, handleJoinRoom]
        | some room =>
          by_cases hc : (setClient room.Clients ws (localOf w ws).nickname).length ≥ 2
              ∧ room.CurrentDrawer = none
          · simp [atomsOf, h1, h2, h3, hr, runAtoms, runAtom, handleJoinRoom, hc,
              findRoom_putRoom_same, putRoom_putRoom]
          · simp [atomsOf, h1, h2, h3, hr, runAtoms, runAtom, handleJoinRoom, hc]
      · by_cases h4 : msg.Typ = "message"
        · rw [handleMessage_chat w o ws msg h4] at h
          simp only [Option.some.injEq] at h
          subst h
          simp [atomsOf, h1, h2, h3, h4, runAtoms, runAtom, handleChat]
        · by_cases h5 : msg.Typ = "draw"
          · rw [handleMessage_draw w o ws msg h5] at h
            simp only [Option.some.injEq] at h
            subst h
            cases hr : findRoom w.rooms msg.RoomCode with
            | none => simp [atomsOf, h1, h2, h3, h4, h5, hr, runAtoms, handleDraw]
            | some room =>
              by_cases hd : some ws ≠ room.CurrentDrawer
              · simp [atomsOf, h1, h2, h3, h4, h5, hr, runAtoms, handleDraw, hd]
              · simp [atomsOf, h1, h2, h3, h4, h5, hr, runAtoms, runAtom, handleDraw, hd]
          · by_cases h6 : msg.Typ = "guess"
            · rw [handleMessage_guess w o ws msg h6] at h
              simp only [Option.some.injEq] at h
              subst h
              cases hr : findRoom w.rooms msg.RoomCode with
              | none => simp [atomsOf, h1, h2, h3, h4, h5, h6, hr, runAtoms, handleGuess]
              | some room =>
                by_cases hw : msg.Message = room.WordToDraw
                · obtain ⟨cl1, hcl1⟩ := findRoom_broadcastMessage_same w (o.order 0) (o.fails 0)
                    (guessCorrectMsg (getClient room.Clients ws)) msg.RoomCode room hr
                  obtain ⟨cl2, hcl2⟩ := findRoom_broadcastMessage_same _ (o.order 1) (o.fails 2)
                    clearCanvasMsg msg.RoomCode _ hcl1
                  simp [atomsOf, h1, h2, h3, h4, h5, h6, hr, runAtoms, runAtom, handleGuess,
                    hw, hcl2]
                · simp [atomsOf, h1, h2, h3, h4, h5, h6, hr, runAtoms, runAtom, handleGuess, hw]
            · simp only [handleMessage, h1, h2, h3, h4, h5, h6, if_false,
                Option.some.injEq] at h
              subst h
              simp [atomsOf, h1, h2, h3, h4, h5, h6, runAtoms]

theorem handleReceiveFailure_is_atom (w : World) (ws : Conn) :
    runAtoms w [Atom.close ws] = handleReceiveFailure w ws := rfl

theorem closed_connection_frame_is_handled :
    (run World.empty closedGuesserSession).map (fun p => (p.1.rooms, p.1.closed))
      = some ([("0", ⟨"0", [(1, "Anonyme"), (2, "Anonyme")], some 3, "maison"⟩)], [3]) := by
  decide

/-! ## Runs of events are runs of sections -/

theorem runAtom_locals (w : World) (l : List (Conn × Local)) (a : Atom) :
    runAtom ⟨w.rooms, l, w.closed⟩ a
      = ⟨(runAtom w a).rooms, l, (runAtom w a).closed⟩ := by
  cases a with
  | assign code ws name =>
    simp only [runAtom]
    cases findRoom w.rooms code <;> rfl
  | create code ws name => rfl
  | round code nextDrawer o =>
    simp only [runAtom]
    cases findRoom w.rooms code <;> rfl
  | broadcast code msg ord fails =>
    simp only [runAtom, broadcastMessage]
    cases findRoom w.rooms code <;> rfl
  | broadcastDraw code msg sender ord fails =>
    simp only [runAtom, broadcastDraw]
    cases findRoom w.rooms code <;> rfl
  | close ws => rfl

theorem runAtoms_locals (atoms : List Atom) :
    ∀ (w : World) (l : List (Conn × Local)),
      runAtoms ⟨w.rooms, l, w.closed⟩ atoms
        = ⟨(runAtoms w atoms).rooms, l, (runAtoms w atoms).closed⟩ := by
  induction atoms with
  | nil => intro w l; rfl
  | cons a rest ih =>
    intro w l
    simp only [runAtoms]
    rw [runAtom_locals w l a]
    exact ih (runAtom w a) l

theorem atomReachable_runAtoms (atoms : List Atom) :
    ∀ (w : World), AtomReachable (fun _ _ => true) w →
      AtomReachable (fun _ _ => true) (runAtoms w atoms) := by
  induction atoms with
  | nil => intro w h; exact h
  | cons a rest ih =>
    intro w h
    exact ih _ (AtomReachable.next w a h rfl)

theorem reachable_is_atomReachable (w : World) (h : ReachableVia (fun _ _ => true) w) :
    AtomReachable (fun _ _ => true) ⟨w.rooms, [], w.closed⟩ := by
  induction h with
  | init => exact AtomReachable.init
  | next w0 e w1 tr _ _ hstep ih =>
    cases e with
    | recvFail ws =>
      simp only [step, Option.some.injEq, Prod.mk.injEq] at hstep
      obtain ⟨hw, _⟩ := hstep
      subst hw
      exact AtomReachable.next _ (Atom.close ws) ih rfl
    | recv ws msg o =>
      have hat := handleMessage_is_atoms w0 o ws msg (w1, tr) hstep
      have hrun := atomReachable_runAtoms (atomsOf w0 o ws msg) _ ih
      rw [runAtoms_locals (atomsOf w0 o ws msg) w0 []] at hrun
      rw [hat.1, hat.2] at hrun
      exact hrun

end Guesswatch
